import Mathlib

/-!
# Verification of the simple-live-log-stream Broadcaster (src/server.js)

Shallow embedding of the LogBroadcaster variant of `src/server.js`:
string utilities mirroring the JavaScript primitives used by the code,
a backtracking matcher for the two concrete IP-address regular
expressions of `obfuscateIPAddresses`, the `LogBroadcaster` state and
its operations (`filterLogsForClient`, `sendLogHistoryToClient`,
`updateClientTextSearch`, `broadcastBufferedMessages`,
`startTailProcess`, ingestion handlers), followed by theorems settling
the specification claims.
-/

namespace LogStream

/-! ## JavaScript string primitives -/

/-- JavaScript `\w` word character: ASCII letter, digit or underscore. -/
def isWordChar (c : Char) : Bool :=
  c.isAlphanum || c = '_'

/-- Character of `s` at index `i`; out-of-range positions read as a space,
which is neither a word character, a hex digit, `'.'` nor `':'`, so all
pattern primitives correctly fail past the end of the string. -/
def charAt (s : List Char) (i : Nat) : Char :=
  s.getD i ' '

/-- JavaScript `\b` word-boundary assertion at position `i` of `s`:
holds when exactly one of the two surrounding positions is a word
character (positions outside the string count as non-word). -/
def wordBoundary (s : List Char) (i : Nat) : Bool :=
  let before := decide (0 < i) && isWordChar (charAt s (i - 1))
  let after := decide (i < s.length) && isWordChar (charAt s i)
  before != after

/-- JavaScript prefix test (`hay` starts with `needle`) on character lists. -/
def startsWithSeq : List Char → List Char → Bool
  | _, [] => true
  | [], _ :: _ => false
  | h :: hs, n :: ns => h = n && startsWithSeq hs ns

/-- JavaScript `hay.includes(needle)` on character lists. -/
def containsSeq : List Char → List Char → Bool
  | [], needle => needle.isEmpty
  | h :: t, needle => startsWithSeq (h :: t) needle || containsSeq t needle

/-- JavaScript `s.includes(sub)`. -/
def jsIncludes (s sub : String) : Bool :=
  containsSeq s.data sub.data

/-- JavaScript `s.toLowerCase()` (ASCII case folding). -/
def lowerStr (s : String) : String :=
  String.mk (s.data.map Char.toLower)

/-- JavaScript `s.trim()`: strip leading and trailing whitespace. -/
def jsTrim (s : String) : String :=
  String.mk ((((s.data.dropWhile Char.isWhitespace).reverse.dropWhile
    Char.isWhitespace).reverse))

/-- JavaScript `s.split(sep)` for a one-character separator: always
returns at least one (possibly empty) field. -/
def jsSplitChar (sep : Char) : List Char → List (List Char)
  | [] => [[]]
  | c :: rest =>
    match jsSplitChar sep rest with
    | [] => [[c]]
    | g :: gs => if c = sep then [] :: g :: gs else (c :: g) :: gs

/-- JavaScript `array.join('\n')` on strings. -/
def joinLines : List String → String
  | [] => ""
  | [l] => l
  | l :: ls => l ++ "\n" ++ joinLines ls

/-! ## Backtracking matcher for the two IP-address patterns

A candidate generator maps a string and a start position to the list of
lengths the fragment can consume, in JavaScript backtracking preference
order (first element = the alternative the JS engine commits to first).
-/

/-- Candidate generator: string → position → consumable lengths in
preference order. -/
def CG : Type := List Char → Nat → List Nat

/-- Fragment consuming one character satisfying `p`. -/
def cgPred (p : Char → Bool) : CG := fun s i =>
  if p (charAt s i) && decide (i < s.length) then [1] else []

/-- Fragment consuming the literal character `c`. -/
def cgChar (c : Char) : CG := cgPred (fun x => x = c)

/-- Zero-width assertion `a`. -/
def cgAssert (a : List Char → Nat → Bool) : CG := fun s i =>
  if a s i then [0] else []

/-- Sequential composition: the left fragment backtracks last, exactly
as in a JavaScript regular expression. -/
def cgSeq (f g : CG) : CG := fun s i =>
  (f s i).flatMap fun lf => (g s (i + lf)).map fun lg => lf + lg

/-- Greedy counted repetition `f{min,max}` with full backtracking:
prefers consuming another repetition of `f` over stopping, and may stop
only once at least `min` repetitions have been consumed. -/
def cgRep (f : CG) : Nat → Nat → CG
  | min, 0 => fun _ _ => if min = 0 then [0] else []
  | min, max + 1 => fun s i =>
    ((f s i).flatMap fun c =>
      (cgRep f (min - 1) max s (i + c)).map fun r => c + r) ++
    (if min = 0 then [0] else [])

/-- Ordered alternation. -/
def cgAlt (alts : List CG) : CG := fun s i =>
  (alts.map (fun a => a s i)).flatten

/-- First (preferred) match length of a pattern at position `i`, i.e.
what the JavaScript engine would match there. -/
def cgMatch (f : CG) (s : List Char) (i : Nat) : Option Nat :=
  (f s i).head?

/-! ### The IPv4 pattern
`\b(?:(?:25[0-5]|2[0-4][0-9]|[01]?[0-9][0-9]?)\.){3}(?:25[0-5]|2[0-4][0-9]|[01]?[0-9][0-9]?)\b` -/

/-- One octet alternative `25[0-5]|2[0-4][0-9]|[01]?[0-9][0-9]?`. -/
def cgOctet : CG :=
  cgAlt
    [ cgSeq (cgChar '2') (cgSeq (cgChar '5') (cgPred fun c => '0' ≤ c && c ≤ '5')),
      cgSeq (cgChar '2') (cgSeq (cgPred fun c => '0' ≤ c && c ≤ '4') (cgPred Char.isDigit)),
      cgSeq (cgRep (cgPred fun c => c = '0' || c = '1') 0 1)
        (cgSeq (cgPred Char.isDigit) (cgRep (cgPred Char.isDigit) 0 1)) ]

/-- The complete IPv4 pattern with its word boundaries. -/
def cgIPv4 : CG :=
  cgSeq (cgAssert wordBoundary)
    (cgSeq (cgRep (cgSeq cgOctet (cgChar '.')) 3 3)
      (cgSeq cgOctet (cgAssert wordBoundary)))

/-! ### The IPv6 pattern (ten ordered alternatives) -/

/-- Hexadecimal digit. -/
def isHexDigit (c : Char) : Bool :=
  c.isDigit || ('a' ≤ c && c ≤ 'f') || ('A' ≤ c && c ≤ 'F')

/-- Fragment `[0-9a-fA-F]{1,4}`. -/
def cgHex4 : CG := cgRep (cgPred isHexDigit) 1 4

/-- Fragment `(?:[0-9a-fA-F]{1,4}:)`. -/
def cgHexColon : CG := cgSeq cgHex4 (cgChar ':')

/-- Fragment `(?::[0-9a-fA-F]{1,4})`. -/
def cgColonHex : CG := cgSeq (cgChar ':') cgHex4

/-- Wrap a body between the two `\b` assertions every IPv6 alternative
carries. -/
def cgWb (body : CG) : CG :=
  cgSeq (cgAssert wordBoundary) (cgSeq body (cgAssert wordBoundary))

/-- The complete IPv6 pattern, alternatives in source order. -/
def cgIPv6 : CG :=
  cgAlt
    [ cgWb (cgSeq (cgRep cgHexColon 7 7) cgHex4),
      cgWb (cgSeq (cgRep cgHexColon 1 7) (cgChar ':')),
      cgWb (cgSeq (cgRep cgHexColon 1 6) (cgSeq (cgChar ':') cgHex4)),
      cgWb (cgSeq (cgRep cgHexColon 1 5) (cgRep cgColonHex 1 2)),
      cgWb (cgSeq (cgRep cgHexColon 1 4) (cgRep cgColonHex 1 3)),
      cgWb (cgSeq (cgRep cgHexColon 1 3) (cgRep cgColonHex 1 4)),
      cgWb (cgSeq (cgRep cgHexColon 1 2) (cgRep cgColonHex 1 5)),
      cgWb (cgSeq cgHex4 (cgSeq (cgChar ':') (cgRep cgColonHex 1 6))),
      cgWb (cgSeq (cgChar ':') (cgSeq (cgChar ':')
        (cgSeq (cgRep cgHexColon 0 6) cgHex4))),
      cgWb (cgSeq (cgRep cgHexColon 1 7) (cgChar ':')) ]

/-! ### Global replace -/

/-- One pass of JavaScript `s.replace(pattern, fn)` with a global
pattern: scan left to right, replace each leftmost match via `repl`,
resume after the matched text.  `fuel` bounds the number of loop steps
(every step advances the position by at least one). -/
def replaceLoop (m : List Char → Nat → Option Nat) (repl : List Char → List Char)
    (s : List Char) : Nat → Nat → List Char
  | 0, i => s.drop i
  | fuel + 1, i =>
    if i < s.length then
      match m s i with
      | some len =>
        if len = 0 then
          charAt s i :: replaceLoop m repl s fuel (i + 1)
        else
          repl ((s.drop i).take len) ++ replaceLoop m repl s fuel (i + len)
      | none => charAt s i :: replaceLoop m repl s fuel (i + 1)
    else []

/-- JavaScript `s.replace(pattern, fn)` with the `g` flag. -/
def runReplace (m : List Char → Nat → Option Nat) (repl : List Char → List Char)
    (s : List Char) : List Char :=
  replaceLoop m repl s (s.length + 1) 0

/-- Replacement callback of the IPv4 pass:
`` `${parts[0]}.${parts[1]}.xxx.xxx` `` with `parts = match.split('.')`. -/
def ipv4Repl (m : List Char) : List Char :=
  let parts := jsSplitChar '.' m
  parts.getD 0 [] ++ '.' :: parts.getD 1 [] ++ ".xxx.xxx".data

/-- Text of `match` before its first `::` (JavaScript
`match.split('::')[0]`). -/
def beforeDoubleColon : List Char → List Char
  | [] => []
  | c :: rest =>
    if c = ':' ∧ rest.head? = some ':' then []
    else c :: beforeDoubleColon rest

/-- Replacement callback of the IPv6 pass, mirroring the
`match.includes('::')` branch structure of the source. -/
def ipv6Repl (m : List Char) : List Char :=
  if containsSeq m (':' :: [':']) then
    let firstPart := beforeDoubleColon m
    let segments := jsSplitChar ':' firstPart
    if 2 ≤ segments.length then
      segments.getD 0 [] ++ ':' :: segments.getD 1 [] ++ "::xxxx:xxxx:xxxx:xxxx".data
    else
      segments.getD 0 [] ++ ":xxxx::xxxx:xxxx:xxxx:xxxx".data
  else
    let parts := jsSplitChar ':' m
    parts.getD 0 [] ++ ':' :: parts.getD 1 [] ++ ":xxxx:xxxx:xxxx:xxxx:xxxx:xxxx".data

/-- Function `obfuscateIPAddresses` of src/server.js: the IPv4 replacement pass
followed by the IPv6 replacement pass on its result. -/
def obfuscateIPAddresses (logData : String) : String :=
  let pass1 := runReplace (cgMatch cgIPv4) ipv4Repl logData.data
  let pass2 := runReplace (cgMatch cgIPv6) ipv6Repl pass1
  String.mk pass2

/-- Tiling of one global-replace pass over `s`: the spans the scan
visits in order, each tagged `true` when the pattern matched there
(that span is rewritten) and `false` otherwise (that span is copied
verbatim).  Mirrors `replaceLoop` step for step. -/
def replacePieces (m : List Char → Nat → Option Nat) (s : List Char) :
    Nat → Nat → List (List Char × Bool)
  | 0, i => [(s.drop i, false)]
  | fuel + 1, i =>
    if i < s.length then
      match m s i with
      | some len =>
        if len = 0 then ([charAt s i], false) :: replacePieces m s fuel (i + 1)
        else ((s.drop i).take len, true) :: replacePieces m s fuel (i + len)
      | none => ([charAt s i], false) :: replacePieces m s fuel (i + 1)
    else []

/-- The tiling of one full pass over `s`. -/
def runReplacePieces (m : List Char → Nat → Option Nat) (s : List Char) :
    List (List Char × Bool) :=
  replacePieces m s (s.length + 1) 0

/-! ## The LogBroadcaster data model -/

/-- Per-client state kept in the broadcaster's `clients` map
(`addClient` of src/server.js), plus the `lastErrorMessage` field that
`broadcastBufferedMessages` writes on a send failure. -/
structure ClientData where
  textSearch : String
  textSearchLowerCase : String
  messagesSent : Nat
  totalBytesSent : Nat
  lastErrorMessage : Option String
deriving DecidableEq, Repr

/-- The fresh client record built in `addClient`. -/
def newClientData : ClientData :=
  { textSearch := ""
    textSearchLowerCase := ""
    messagesSent := 0
    totalBytesSent := 0
    lastErrorMessage := none }

/-- The counters of `this.stats` that the modelled operations touch. -/
structure Stats where
  totalMessagesProcessed : Nat
  totalBytesProcessed : Nat
  totalClientConnections : Nat
  totalClientDisconnections : Nat
  totalMessagesSent : Nat
  totalBytesSent : Nat
deriving DecidableEq, Repr

/-- Broadcaster state.  `clients` is an insertion-ordered association
list standing for the JavaScript `Map`, keyed by an opaque connection
identifier.  `initialReadsSpawned` / `tailsSpawned` count processes
spawned by `startTailProcess` and the backfill close handler, making
instance duplication observable. -/
structure BState where
  clients : List (Nat × ClientData)
  storedLogs : List String
  messageBuffer : List String
  bufferTimeout : Bool
  isStarted : Bool
  initialReadsSpawned : Nat
  tailsSpawned : Nat
  stats : Stats
deriving DecidableEq, Repr

/-- Constant `this.MAX_STORED_LOGS`. -/
def MAX_STORED_LOGS : Nat := 5000

/-- Constant `this.CLIENT_HISTORY_LIMIT`. -/
def CLIENT_HISTORY_LIMIT : Nat := 1000

/-- Constant `this.BUFFER_SIZE`. -/
def BUFFER_SIZE : Nat := 100

/-- State of the broadcaster at construction time. -/
def initialState : BState :=
  { clients := []
    storedLogs := []
    messageBuffer := []
    bufferTimeout := false
    isStarted := false
    initialReadsSpawned := 0
    tailsSpawned := 0
    stats :=
      { totalMessagesProcessed := 0
        totalBytesProcessed := 0
        totalClientConnections := 0
        totalClientDisconnections := 0
        totalMessagesSent := 0
        totalBytesSent := 0 } }

/-- JavaScript `array.slice(-n)` for positive `n`: the most recent
`min n (length)` elements in order. -/
def lastNList (n : Nat) (l : List α) : List α :=
  l.drop (l.length - n)

/-- The trimming applied after every `storedLogs.push(...)`:
`splice(0, excess)` drops the oldest entries past `MAX_STORED_LOGS`. -/
def trimStored (l : List String) : List String :=
  if MAX_STORED_LOGS < l.length then l.drop (l.length - MAX_STORED_LOGS) else l

/-- Function `filterLogsForClient` of src/server.js: when the client has a
non-empty text search, keep the lines whose lowercase form includes the
pre-computed lowercase search string. -/
def filterLogsForClient (client : ClientData) (logLines : List String) : List String :=
  if client.textSearch ≠ "" then
    logLines.filter fun line => jsIncludes (lowerStr line) client.textSearchLowerCase
  else
    logLines

/-- The `filteredLogs` computation of `sendLogHistoryToClient`: with a
non-empty text search the whole store is filtered before truncation to
the last `CLIENT_HISTORY_LIMIT` matches; otherwise the last
`CLIENT_HISTORY_LIMIT` raw lines are filtered. -/
def historyFilteredLogs (storedLogs : List String) (client : ClientData) :
    List String :=
  if client.textSearch ≠ "" then
    lastNList CLIENT_HISTORY_LIMIT (filterLogsForClient client storedLogs)
  else
    filterLogsForClient client (lastNList CLIENT_HISTORY_LIMIT storedLogs)

/-- Function `sendLogHistoryToClient` of src/server.js.  Here `wsOpenB` models
`ws.readyState === OPEN`, `sendFailB` models `ws.send` throwing; the
returned option is the payload that went out on the wire, `none` when
nothing was sent. -/
def sendLogHistoryToClient (storedLogs : List String) (client : ClientData)
    (wsOpenB sendFailB : Bool) : ClientData × Option String :=
  if storedLogs.isEmpty then
    (client, none)
  else
    let filteredLogs := historyFilteredLogs storedLogs client
    if filteredLogs.isEmpty then
      (client, if wsOpenB && !sendFailB then some "" else none)
    else
      let historicalData := joinLines filteredLogs
      let dataSize := historicalData.utf8ByteSize
      if wsOpenB then
        if sendFailB then
          (client, none)
        else
          ({ client with
              messagesSent := client.messagesSent + filteredLogs.length
              totalBytesSent := client.totalBytesSent + dataSize },
            some historicalData)
      else
        (client, none)

/-- History payload for a healthy transport (open socket, send
succeeds). -/
def historyPayload (storedLogs : List String) (client : ClientData) : Option String :=
  (sendLogHistoryToClient storedLogs client true false).2

/-- Function `updateClientTextSearch` of src/server.js, per client: write the
new search and its lowercase form, and resend history exactly when the
value changed.  The middle component reports whether a resend was
triggered; the last is the payload it produced. -/
def updateClientTextSearch (storedLogs : List String) (client : ClientData)
    (textSearch : String) (wsOpenB sendFailB : Bool) :
    ClientData × Bool × Option String :=
  let oldTextSearch := client.textSearch
  let client1 :=
    { client with
        textSearch := textSearch
        textSearchLowerCase := lowerStr textSearch }
  if oldTextSearch ≠ textSearch then
    let r := sendLogHistoryToClient storedLogs client1 wsOpenB sendFailB
    (r.1, true, r.2)
  else
    (client1, false, none)

/-- The `setTextSearch` branch of the connection message handler:
a string value is trimmed, anything else is treated as the empty
string, then `updateClientTextSearch` runs. -/
def handleSetTextSearch (storedLogs : List String) (client : ClientData)
    (value : Option String) (wsOpenB sendFailB : Bool) :
    ClientData × Bool × Option String :=
  let textSearchValue :=
    match value with
    | some s => jsTrim s
    | none => ""
  updateClientTextSearch storedLogs client textSearchValue wsOpenB sendFailB

/-- Outcome of one client's turn in the `broadcastBufferedMessages`
loop. -/
structure FlushStep where
  entry : Nat × ClientData
  event : Option (Nat × String)
  succ : Nat
  bytes : Nat
deriving Repr

/-- One iteration of the per-client loop of
`broadcastBufferedMessages`: skip closed sockets, filter the shared
buffer for this client, send when the filtered result is non-empty, and
on a thrown send record the error on the client instead of
propagating. -/
def processClient (buffer : List String) (wsOpen sendFails : Nat → Bool)
    (entry : Nat × ClientData) : FlushStep :=
  let id := entry.1
  let client := entry.2
  if wsOpen id then
    let filteredLogs := filterLogsForClient client buffer
    if filteredLogs.isEmpty then
      { entry := (id, client), event := none, succ := 0, bytes := 0 }
    else
      let filteredData := joinLines filteredLogs
      let filteredDataSize := filteredData.utf8ByteSize
      if sendFails id then
        { entry := (id, { client with lastErrorMessage := some "send failed" })
          event := none, succ := 0, bytes := 0 }
      else
        { entry :=
            (id, { client with
                messagesSent := client.messagesSent + filteredLogs.length
                totalBytesSent := client.totalBytesSent + filteredDataSize })
          event := some (id, filteredData)
          succ := 1
          bytes := filteredDataSize }
  else
    { entry := (id, client), event := none, succ := 0, bytes := 0 }

/-- Function `broadcastBufferedMessages` of src/server.js: early return on an
empty buffer (clearing only the scheduled-flush marker), otherwise one
pass over all clients followed by stats update and buffer reset.
Returns the new state and the list of `(client, payload)` sends. -/
def broadcastBufferedMessages (st : BState) (wsOpen sendFails : Nat → Bool) :
    BState × List (Nat × String) :=
  if st.messageBuffer.isEmpty then
    ({ st with bufferTimeout := false }, [])
  else
    let steps := st.clients.map (processClient st.messageBuffer wsOpen sendFails)
    let successfulSends := (steps.map FlushStep.succ).sum
    let totalBytesSent := (steps.map FlushStep.bytes).sum
    ({ st with
        clients := steps.map FlushStep.entry
        messageBuffer := []
        bufferTimeout := false
        stats :=
          { st.stats with
              totalMessagesSent :=
                st.stats.totalMessagesSent + st.messageBuffer.length * successfulSends
              totalBytesSent := st.stats.totalBytesSent + totalBytesSent } },
      steps.filterMap FlushStep.event)

/-- Function `addClient` of src/server.js: register the connection with an empty
filter and immediately replay history to it.  The tail process is not
started here. -/
def addClient (st : BState) (id : Nat) (wsOpenB sendFailB : Bool) :
    BState × Option String :=
  let r := sendLogHistoryToClient st.storedLogs newClientData wsOpenB sendFailB
  ({ st with
      clients := st.clients ++ [(id, r.1)]
      stats :=
        { st.stats with
            totalClientConnections := st.stats.totalClientConnections + 1 } },
    r.2)

/-- Function `startTailProcess` of src/server.js: guarded only by `isStarted`,
which the backfill close handler sets; a call that passes the guard
spawns the backfill reader. -/
def startTailProcess (st : BState) : BState :=
  if st.isStarted then st
  else { st with initialReadsSpawned := st.initialReadsSpawned + 1 }

/-- The `initialRead.on('close', ...)` handler: spawn the live tail and
flag the source as started. -/
def handleInitialReadClose (st : BState) : BState :=
  { st with isStarted := true, tailsSpawned := st.tailsSpawned + 1 }

/-- Raw lines extracted from one stdout chunk, shared by the backfill
and live data handlers: trim the chunk, drop it when blank, split on
newlines and keep the lines with non-blank trims. -/
def rawLines (chunk : String) : List String :=
  let logData := jsTrim chunk
  if logData = "" then []
  else (logData.splitOn "\n").filter fun line => jsTrim line ≠ ""

/-- The `initialRead.stdout.on('data', ...)` backfill handler:
obfuscate each line and append to the bounded store. -/
def handleInitialReadData (st : BState) (chunk : String) : BState :=
  let obfuscatedLines := (rawLines chunk).map obfuscateIPAddresses
  { st with storedLogs := trimStored (st.storedLogs ++ obfuscatedLines) }

/-- The live `tail.stdout.on('data', ...)` handler: obfuscate each
line, append to the bounded store and the pending buffer, then flush
when the buffer reached `BUFFER_SIZE` or otherwise schedule a flush. -/
def handleTailData (st : BState) (wsOpen sendFails : Nat → Bool) (chunk : String) :
    BState × List (Nat × String) :=
  let logData := jsTrim chunk
  if logData = "" then (st, [])
  else
    let obfuscatedLines := (rawLines chunk).map obfuscateIPAddresses
    let st1 :=
      { st with
          storedLogs := trimStored (st.storedLogs ++ obfuscatedLines)
          messageBuffer := st.messageBuffer ++ obfuscatedLines
          stats :=
            { st.stats with
                totalBytesProcessed :=
                  st.stats.totalBytesProcessed + logData.utf8ByteSize
                totalMessagesProcessed :=
                  st.stats.totalMessagesProcessed + obfuscatedLines.length } }
    if BUFFER_SIZE ≤ st1.messageBuffer.length then
      broadcastBufferedMessages st1 wsOpen sendFails
    else if !st.bufferTimeout then
      ({ st1 with bufferTimeout := true }, [])
    else
      (st1, [])

/-- Ingestion events that feed the store: backfill chunks and live
chunks. -/
inductive IngestEvent where
  | backfill (chunk : String)
  | live (chunk : String)

/-- The stdout chunk carried by an ingestion event. -/
def IngestEvent.chunk : IngestEvent → String
  | .backfill c => c
  | .live c => c

/-- Apply one ingestion event to the state. -/
def stepIngest (wsOpen sendFails : Nat → Bool) (st : BState) :
    IngestEvent → BState
  | .backfill chunk => handleInitialReadData st chunk
  | .live chunk => (handleTailData st wsOpen sendFails chunk).1

/-- Run a sequence of ingestion events. -/
def runIngest (wsOpen sendFails : Nat → Bool) (st : BState)
    (events : List IngestEvent) : BState :=
  events.foldl (stepIngest wsOpen sendFails) st

/-- The store-trimming fold in isolation: start from an empty store and
append batch after batch, trimming each time (claim C2's model of
`HistoryStore.append`). -/
def ingestStored (batches : List (List String)) : List String :=
  batches.foldl (fun s b => trimStored (s ++ b)) []

/-! ## Helper lemmas about the bounded store -/

theorem lastNList_reverse {α : Type} (n : Nat) (l : List α) :
    (lastNList n l).reverse = l.reverse.take n := by
  unfold lastNList
  rw [List.reverse_drop]
  apply List.take_eq_take.mpr
  simp
  omega

theorem take_append_take {α : Type} (n : Nat) (a b : List α) :
    (a ++ b.take n).take n = (a ++ b).take n := by
  rw [List.take_append_eq_append_take, List.take_append_eq_append_take,
    List.take_take]
  congr 1
  apply List.take_eq_take.mpr
  simp

theorem lastNList_append_lastNList {α : Type} (n : Nat) (xs ys : List α) :
    lastNList n (lastNList n xs ++ ys) = lastNList n (xs ++ ys) := by
  apply List.reverse_injective
  rw [lastNList_reverse, lastNList_reverse, List.reverse_append,
    List.reverse_append, lastNList_reverse, take_append_take]

theorem trimStored_eq_lastNList (l : List String) :
    trimStored l = lastNList MAX_STORED_LOGS l := by
  unfold trimStored lastNList
  split
  · rfl
  · have : l.length - MAX_STORED_LOGS = 0 := by omega
    rw [this, List.drop_zero]

theorem length_lastNList {α : Type} (n : Nat) (l : List α) :
    (lastNList n l).length ≤ n := by
  unfold lastNList
  simp only [List.length_drop]
  omega

theorem lastNList_subset {α : Type} (n : Nat) (l : List α) :
    lastNList n l ⊆ l :=
  List.drop_subset ..

theorem foldl_trimStored (batches : List (List String)) :
    ∀ xs : List String,
      batches.foldl (fun s b => trimStored (s ++ b)) (lastNList MAX_STORED_LOGS xs)
        = lastNList MAX_STORED_LOGS (xs ++ batches.flatten) := by
  induction batches with
  | nil => intro xs; simp
  | cons b bs ih =>
    intro xs
    rw [List.foldl_cons, trimStored_eq_lastNList, lastNList_append_lastNList,
      ih (xs ++ b)]
    simp

theorem ingestStored_eq_lastNList (batches : List (List String)) :
    ingestStored batches = lastNList MAX_STORED_LOGS batches.flatten := by
  have h0 : ([] : List String) = lastNList MAX_STORED_LOGS [] := rfl
  unfold ingestStored
  rw [h0, foldl_trimStored batches []]
  rfl

theorem flatten_map_singleton {α β : Type} (l : List α) (f : α → β) :
    (l.map fun a => [f a]).flatten = l.map f := by
  induction l with
  | nil => rfl
  | cons a t ih => simp [ih]

theorem lastNList_append_right {α : Type} (a b : List α) (n : Nat)
    (hb : b.length = n) : lastNList n (a ++ b) = b := by
  unfold lastNList
  have h : (a ++ b).length - n = a.length := by
    simp [hb]
  rw [h, List.drop_left]

/-! ## Helper lemmas about filtering and sending -/

theorem containsSeq_nil (hay : List Char) : containsSeq hay [] = true := by
  cases hay <;> simp [containsSeq, startsWithSeq]

theorem jsIncludes_empty (s : String) : jsIncludes s "" = true :=
  containsSeq_nil s.data

theorem filterLogsForClient_subset (c : ClientData) (lines : List String) :
    filterLogsForClient c lines ⊆ lines := by
  unfold filterLogsForClient
  split
  · exact fun l hl => (List.mem_filter.mp hl).1
  · exact fun _ h => h

theorem filterLogsForClient_nil (c : ClientData) :
    filterLogsForClient c [] = [] := by
  unfold filterLogsForClient
  split <;> rfl

theorem mem_filterLogs_sound {c : ClientData}
    (hwf : c.textSearchLowerCase = lowerStr c.textSearch)
    (lines : List String) {l : String} (hl : l ∈ filterLogsForClient c lines) :
    jsIncludes (lowerStr l) (lowerStr c.textSearch) = true := by
  unfold filterLogsForClient at hl
  by_cases hts : c.textSearch ≠ ""
  · rw [if_pos hts] at hl
    have := List.of_mem_filter hl
    rwa [hwf] at this
  · have hts' : c.textSearch = "" := by
      by_contra hne
      exact hts hne
    rw [hts']
    have : lowerStr "" = "" := rfl
    rw [this]
    exact jsIncludes_empty _

theorem historyFilteredLogs_subset (storedLogs : List String) (c : ClientData) :
    historyFilteredLogs storedLogs c ⊆ storedLogs := by
  unfold historyFilteredLogs
  split
  · exact fun l hl =>
      filterLogsForClient_subset c storedLogs (lastNList_subset _ _ hl)
  · exact fun l hl =>
      lastNList_subset _ _ (filterLogsForClient_subset c _ hl)

theorem historyFilteredLogs_sound {c : ClientData}
    (hwf : c.textSearchLowerCase = lowerStr c.textSearch)
    (storedLogs : List String) {l : String}
    (hl : l ∈ historyFilteredLogs storedLogs c) :
    jsIncludes (lowerStr l) (lowerStr c.textSearch) = true := by
  unfold historyFilteredLogs at hl
  revert hl
  split
  · exact fun hl => mem_filterLogs_sound hwf _ (lastNList_subset _ _ hl)
  · exact fun hl => mem_filterLogs_sound hwf _ hl

/-- Anatomy of a successful history send: the payload is the join of
the selected filtered lines. -/
theorem sendLogHistory_some {storedLogs : List String} {c : ClientData}
    {oB fB : Bool} {p : String}
    (h : (sendLogHistoryToClient storedLogs c oB fB).2 = some p) :
    p = "" ∨ p = joinLines (historyFilteredLogs storedLogs c) ∧
      historyFilteredLogs storedLogs c ≠ [] := by
  unfold sendLogHistoryToClient at h
  by_cases h0 : storedLogs.isEmpty
  · simp [h0] at h
  · rw [if_neg h0] at h
    by_cases h1 : (historyFilteredLogs storedLogs c).isEmpty
    · simp only [h1, if_true] at h
      left
      by_cases h2 : oB && !fB
      · simp [h2] at h
        exact h.symm
      · simp [h2] at h
    · simp only [h1, if_false] at h
      right
      by_cases h2 : oB
      · by_cases h3 : fB
        · simp [h2, h3] at h
        · simp [h2, h3] at h
          exact ⟨h.symm, by simpa [List.isEmpty_iff] using h1⟩
      · simp [h2] at h

/-- Anatomy of one step of the flush loop: when an event is produced
the client's socket was open, its send did not fail, its filtered
result was non-empty, and the payload is the join of that result. -/
theorem processClient_event_some {buffer : List String}
    {wsOpen sendFails : Nat → Bool} {e : Nat × ClientData} {id : Nat} {p : String}
    (h : (processClient buffer wsOpen sendFails e).event = some (id, p)) :
    id = e.1 ∧ wsOpen e.1 = true ∧ sendFails e.1 = false ∧
      filterLogsForClient e.2 buffer ≠ [] ∧
      p = joinLines (filterLogsForClient e.2 buffer) := by
  obtain ⟨eid, c⟩ := e
  by_cases hw : wsOpen eid
  · by_cases h1 : (filterLogsForClient c buffer).isEmpty
    · simp [processClient, hw, h1] at h
    · by_cases h2 : sendFails eid
      · simp [processClient, hw, h1, h2] at h
      · simp [processClient, hw, h1, h2] at h
        exact ⟨h.1.symm, hw, by simpa using h2,
          by simpa [List.isEmpty_iff] using h1, h.2.symm⟩
  · simp [processClient, hw] at h

theorem processClient_event_of {buffer : List String}
    {wsOpen sendFails : Nat → Bool} (e : Nat × ClientData)
    (hw : wsOpen e.1 = true) (hf : sendFails e.1 = false)
    (hne : filterLogsForClient e.2 buffer ≠ []) :
    (processClient buffer wsOpen sendFails e).event
      = some (e.1, joinLines (filterLogsForClient e.2 buffer)) := by
  obtain ⟨eid, c⟩ := e
  simp only at hw hf hne ⊢
  have h1 : ¬ (filterLogsForClient c buffer).isEmpty := by
    simpa [List.isEmpty_iff] using hne
  simp [processClient, hw, h1, hf]

theorem processClient_entry_fail {buffer : List String}
    {wsOpen sendFails : Nat → Bool} (e : Nat × ClientData)
    (hw : wsOpen e.1 = true) (hf : sendFails e.1 = true)
    (hne : filterLogsForClient e.2 buffer ≠ []) :
    (processClient buffer wsOpen sendFails e).entry
      = (e.1, { e.2 with lastErrorMessage := some "send failed" }) := by
  obtain ⟨eid, c⟩ := e
  simp only at hw hf hne ⊢
  have h1 : ¬ (filterLogsForClient c buffer).isEmpty := by
    simpa [List.isEmpty_iff] using hne
  simp [processClient, hw, h1, hf]

theorem broadcast_storedLogs (st : BState) (wsOpen sendFails : Nat → Bool) :
    (broadcastBufferedMessages st wsOpen sendFails).1.storedLogs = st.storedLogs := by
  unfold broadcastBufferedMessages
  split <;> rfl

/-- Every flush event comes from a registered client whose filtered
result was non-empty, and carries exactly the join of that result. -/
theorem mem_flush_events {st : BState} {wsOpen sendFails : Nat → Bool}
    {id : Nat} {p : String}
    (h : (id, p) ∈ (broadcastBufferedMessages st wsOpen sendFails).2) :
    ∃ c, (id, c) ∈ st.clients ∧ wsOpen id = true ∧ sendFails id = false ∧
      filterLogsForClient c st.messageBuffer ≠ [] ∧
      p = joinLines (filterLogsForClient c st.messageBuffer) := by
  unfold broadcastBufferedMessages at h
  split at h
  · simp at h
  · obtain ⟨step, hstep, hev⟩ := List.mem_filterMap.mp h
    obtain ⟨e, he, rfl⟩ := List.mem_map.mp hstep
    obtain ⟨hid, hw, hf, hne, hp⟩ := processClient_event_some hev
    subst hid
    exact ⟨e.2, by simpa using he, hw, hf, hne, hp⟩

/-- A registered client with an open socket, a succeeding send and a
non-empty filtered result receives its payload in the flush. -/
theorem flush_event_mem {st : BState} {wsOpen sendFails : Nat → Bool}
    {id : Nat} {c : ClientData}
    (hmem : (id, c) ∈ st.clients) (hw : wsOpen id = true)
    (hf : sendFails id = false)
    (hne : filterLogsForClient c st.messageBuffer ≠ []) :
    (id, joinLines (filterLogsForClient c st.messageBuffer))
      ∈ (broadcastBufferedMessages st wsOpen sendFails).2 := by
  have hbuf : ¬ st.messageBuffer.isEmpty := by
    intro hb
    apply hne
    have hb' : st.messageBuffer = [] := by simpa [List.isEmpty_iff] using hb
    rw [hb']
    exact filterLogsForClient_nil c
  unfold broadcastBufferedMessages
  rw [if_neg hbuf]
  apply List.mem_filterMap.mpr
  exact ⟨processClient st.messageBuffer wsOpen sendFails (id, c),
    List.mem_map_of_mem _ hmem, processClient_event_of (id, c) hw hf hne⟩

/-- A registered client whose send threw has the failure recorded on
its registry entry after the flush. -/
theorem flush_fail_recorded {st : BState} {wsOpen sendFails : Nat → Bool}
    {id : Nat} {c : ClientData}
    (hmem : (id, c) ∈ st.clients) (hw : wsOpen id = true)
    (hf : sendFails id = true)
    (hne : filterLogsForClient c st.messageBuffer ≠ []) :
    (id, { c with lastErrorMessage := some "send failed" })
      ∈ (broadcastBufferedMessages st wsOpen sendFails).1.clients := by
  have hbuf : ¬ st.messageBuffer.isEmpty := by
    intro hb
    apply hne
    have hb' : st.messageBuffer = [] := by simpa [List.isEmpty_iff] using hb
    rw [hb']
    exact filterLogsForClient_nil c
  unfold broadcastBufferedMessages
  rw [if_neg hbuf]
  simp only [List.map_map]
  apply List.mem_map.mpr
  refine ⟨(id, c), hmem, ?_⟩
  simp only [Function.comp]
  exact processClient_entry_fail (id, c) hw hf hne

/-! ## Spec-side history-replay strategies (for the C3 refinement) -/

/-- Spec wording: filter the full HistoryStore first, then truncate to
the last `CLIENT_HISTORY_LIMIT` matching lines. -/
def specFilterThenTruncate (c : ClientData) (store : List String) : List String :=
  lastNList CLIENT_HISTORY_LIMIT (filterLogsForClient c store)

/-- The rejected alternative: truncate to the last
`CLIENT_HISTORY_LIMIT` raw lines first, then filter. -/
def specTruncateThenFilter (c : ClientData) (store : List String) : List String :=
  filterLogsForClient c (lastNList CLIENT_HISTORY_LIMIT store)

theorem filter_replicate (n : Nat) (a : String) (p : String → Bool) :
    (List.replicate n a).filter p
      = if p a then List.replicate n a else [] := by
  induction n with
  | zero => simp
  | succ m ih =>
    rw [List.replicate_succ, List.filter_cons]
    by_cases hp : p a <;> simp [hp, ih]

theorem joinLines_ne_empty :
    ∀ ls : List String, ls ≠ [] → (∀ l ∈ ls, l ≠ "") → joinLines ls ≠ ""
  | [], h, _ => absurd rfl h
  | [l], _, h => by simpa [joinLines] using h l (by simp)
  | l :: x :: xs, _, h => by
    intro hc
    have hlen := congrArg String.length hc
    simp [joinLines, String.length_append] at hlen
    exact absurd hlen.1.2 (by decide)

/-! ## Claim theorems -/

/-- C2: after any sequence of appends the store holds exactly the
most-recently-appended `MAX_STORED_LOGS` lines in arrival order and
never exceeds that bound; ingesting lines 1..6001 one at a time leaves
exactly lines 1002..6001 in order, the first 1001 gone. -/
theorem claim_C2_store_bound :
    (∀ batches : List (List String),
      ingestStored batches = lastNList MAX_STORED_LOGS batches.flatten ∧
      (ingestStored batches).length ≤ MAX_STORED_LOGS) ∧
    (∀ f : Nat → String, Function.Injective f →
      ingestStored ((List.range' 1 6001).map fun i => [f i])
          = (List.range' 1002 5000).map f ∧
      ∀ i, 1 ≤ i → i ≤ 1001 →
        f i ∉ ingestStored ((List.range' 1 6001).map fun i => [f i])) := by
  have hmax : MAX_STORED_LOGS = 5000 := rfl
  have hrange : List.range' 1 1001 ++ List.range' 1002 5000 = List.range' 1 6001 := by
    have := List.range'_append 1 1001 5000 1
    norm_num at this
    exact this
  have hscen : ∀ f : Nat → String,
      ingestStored ((List.range' 1 6001).map fun i => [f i])
        = (List.range' 1002 5000).map f := by
    intro f
    rw [ingestStored_eq_lastNList, flatten_map_singleton, ← hrange, List.map_append,
      hmax]
    exact lastNList_append_right _ _ _ (by simp)
  refine ⟨fun batches => ⟨ingestStored_eq_lastNList batches, ?_⟩, fun f hf => ⟨hscen f, ?_⟩⟩
  · rw [ingestStored_eq_lastNList]
    exact length_lastNList ..
  · intro i h1 h2 hmem
    rw [hscen f] at hmem
    obtain ⟨j, hj, hfj⟩ := List.mem_map.mp hmem
    have hji : j = i := hf hfj
    have := List.mem_range'_1.mp hj
    omega

/-- C1: every payload a viewer receives — whether produced by a flush
of the pending batch or by a history replay — is a join of lines each
of which satisfies the viewer's case-insensitive substring filter
`jsIncludes (lowerStr line) (lowerStr filter)`. -/
theorem claim_C1_viewer_filter_sound :
    ∀ (st : BState) (wsOpen sendFails : Nat → Bool),
      (∀ e ∈ st.clients, e.2.textSearchLowerCase = lowerStr e.2.textSearch) →
      (∀ id p, (id, p) ∈ (broadcastBufferedMessages st wsOpen sendFails).2 →
        ∃ c lines, (id, c) ∈ st.clients ∧ p = joinLines lines ∧
          ∀ l ∈ lines, jsIncludes (lowerStr l) (lowerStr c.textSearch) = true) ∧
      (∀ (storedLogs : List String) (c : ClientData) (oB fB : Bool) (p : String),
        c.textSearchLowerCase = lowerStr c.textSearch →
        (sendLogHistoryToClient storedLogs c oB fB).2 = some p →
        ∃ lines, p = joinLines lines ∧
          ∀ l ∈ lines, jsIncludes (lowerStr l) (lowerStr c.textSearch) = true) := by
  intro st wsOpen sendFails hwf
  constructor
  · intro id p hp
    obtain ⟨c, hmem, _, _, _, rfl⟩ := mem_flush_events hp
    exact ⟨c, filterLogsForClient c st.messageBuffer, hmem, rfl,
      fun l hl => mem_filterLogs_sound (hwf (id, c) hmem) _ hl⟩
  · intro storedLogs c oB fB p hc hp
    rcases sendLogHistory_some hp with hp0 | ⟨hp1, _⟩
    · exact ⟨[], by simp [hp0, joinLines], by simp⟩
    · exact ⟨historyFilteredLogs storedLogs c, hp1,
        fun l hl => historyFilteredLogs_sound hc _ hl⟩

/-- Witness for C1: a history replay of the store `["xy"]` to a fresh
(unfiltered) client. -/
theorem claim_C1_viewer_filter_sound_witness :
    ∃ lines, "xy" = joinLines lines ∧
      ∀ l ∈ lines,
        jsIncludes (lowerStr l) (lowerStr newClientData.textSearch) = true :=
  (claim_C1_viewer_filter_sound initialState (fun _ => true) (fun _ => false)
      (by intro e he; simp [initialState] at he)).2
    ["xy"] newClientData true false "xy" rfl rfl

/-- C3: with a non-empty filter, history replay follows the
filter-then-truncate strategy of the spec (filter the full store, then
keep the last `CLIENT_HISTORY_LIMIT` matches); moreover the two
strategies genuinely differ on a store that the raw last-1000 window
would starve. -/
theorem claim_C3_filter_then_truncate :
    (∀ (storedLogs : List String) (c : ClientData),
      c.textSearch ≠ "" → storedLogs ≠ [] →
      (sendLogHistoryToClient storedLogs c true false).2
        = (if specFilterThenTruncate c storedLogs = [] then some ""
           else some (joinLines (specFilterThenTruncate c storedLogs)))) ∧
    (∃ (storedLogs : List String) (c : ClientData),
      c.textSearch ≠ "" ∧
      specTruncateThenFilter c storedLogs = [] ∧
      specFilterThenTruncate c storedLogs ≠ []) := by
  constructor
  · intro storedLogs c hts hne
    have h0 : ¬ storedLogs.isEmpty := by simpa [List.isEmpty_iff] using hne
    have hsel : historyFilteredLogs storedLogs c = specFilterThenTruncate c storedLogs := by
      unfold historyFilteredLogs specFilterThenTruncate
      rw [if_pos hts]
    by_cases h1 : (historyFilteredLogs storedLogs c).isEmpty
    · have h1' : specFilterThenTruncate c storedLogs = [] := by
        rw [← hsel]
        simpa [List.isEmpty_iff] using h1
      simp [sendLogHistoryToClient, h0, h1, h1']
    · have h1' : ¬ specFilterThenTruncate c storedLogs = [] := by
        rw [← hsel]
        simpa [List.isEmpty_iff] using h1
      simp [sendLogHistoryToClient, h0, h1, h1', hsel]
  · refine ⟨"needle" :: List.replicate 1000 "hay",
      { textSearch := "needle", textSearchLowerCase := "needle",
        messagesSent := 0, totalBytesSent := 0, lastErrorMessage := none },
      by decide, ?_, ?_⟩
    · unfold specTruncateThenFilter
      have hlast : lastNList CLIENT_HISTORY_LIMIT
          ("needle" :: List.replicate 1000 "hay") = List.replicate 1000 "hay" := by
        unfold lastNList
        rw [List.length_cons, List.length_replicate,
          show 1000 + 1 - CLIENT_HISTORY_LIMIT = 1 from rfl]
        rfl
      rw [hlast]
      unfold filterLogsForClient
      rw [if_pos (by decide)]
      rw [filter_replicate]
      rw [if_neg (by decide)]
    · unfold specFilterThenTruncate
      unfold filterLogsForClient
      rw [if_pos (by decide)]
      rw [List.filter_cons, if_pos (by decide), filter_replicate, if_neg (by decide)]
      decide

/-- Witness for C3: a one-line store with a matching non-empty
filter. -/
theorem claim_C3_filter_then_truncate_witness :
    (sendLogHistoryToClient ["alpha"]
        { textSearch := "alp", textSearchLowerCase := "alp",
          messagesSent := 0, totalBytesSent := 0, lastErrorMessage := none }
        true false).2
      = (if specFilterThenTruncate
            { textSearch := "alp", textSearchLowerCase := "alp",
              messagesSent := 0, totalBytesSent := 0, lastErrorMessage := none }
            ["alpha"] = [] then some ""
         else some (joinLines (specFilterThenTruncate
            { textSearch := "alp", textSearchLowerCase := "alp",
              messagesSent := 0, totalBytesSent := 0, lastErrorMessage := none }
            ["alpha"]))) :=
  claim_C3_filter_then_truncate.1 ["alpha"]
    { textSearch := "alp", textSearchLowerCase := "alp",
      messagesSent := 0, totalBytesSent := 0, lastErrorMessage := none }
    (by decide) (by decide)

/-- C5 counterexample: when the store itself is empty,
`sendLogHistoryToClient` returns before sending anything, so the
viewer receives no payload at all — not an explicit empty payload as
the claim states. -/
theorem claim_C5_counterexample :
    (sendLogHistoryToClient [] newClientData true false).2 = none ∧
    (sendLogHistoryToClient [] newClientData true false).2 ≠ some "" := by
  exact ⟨rfl, by decide⟩

/-- C5 amended: on a history replay over a NON-EMPTY store whose
filtered result is empty, the viewer is sent an explicit empty-string
payload; with an empty store the early return sends nothing. -/
theorem claim_C5_empty_payload :
    ∀ (storedLogs : List String) (c : ClientData),
      storedLogs ≠ [] →
      filterLogsForClient c storedLogs = [] →
      (sendLogHistoryToClient storedLogs c true false).2 = some "" := by
  intro storedLogs c hne hfil
  have h0 : ¬ storedLogs.isEmpty := by simpa [List.isEmpty_iff] using hne
  by_cases hts : c.textSearch ≠ ""
  · have hsel : historyFilteredLogs storedLogs c = [] := by
      unfold historyFilteredLogs
      rw [if_pos hts, hfil]
      rfl
    simp [sendLogHistoryToClient, h0, hsel]
  · have hid : filterLogsForClient c storedLogs = storedLogs := by
      unfold filterLogsForClient
      rw [if_neg hts]
    rw [hid] at hfil
    exact absurd hfil hne

/-- Witness for C5: non-empty store, filter matching nothing. -/
theorem claim_C5_empty_payload_witness :
    (sendLogHistoryToClient ["zebra"]
        { textSearch := "qq", textSearchLowerCase := "qq",
          messagesSent := 0, totalBytesSent := 0, lastErrorMessage := none }
        true false).2 = some "" :=
  claim_C5_empty_payload ["zebra"]
    { textSearch := "qq", textSearchLowerCase := "qq",
      messagesSent := 0, totalBytesSent := 0, lastErrorMessage := none }
    (by decide) (by decide)

/-- C6: a `setTextSearch` carrying the value the viewer already holds
triggers no history resend; a different value triggers exactly one
resend, computed against the client record carrying the new filter. -/
theorem claim_C6_filter_change_resend :
    ∀ (storedLogs : List String) (c : ClientData) (t : String) (oB fB : Bool),
      ((updateClientTextSearch storedLogs c t oB fB).2.1 = true ↔
        c.textSearch ≠ t) ∧
      (c.textSearch = t →
        updateClientTextSearch storedLogs c t oB fB
          = ({ c with textSearch := t, textSearchLowerCase := lowerStr t },
              false, none)) ∧
      (c.textSearch ≠ t →
        (updateClientTextSearch storedLogs c t oB fB).2.2
          = (sendLogHistoryToClient storedLogs
              { c with textSearch := t, textSearchLowerCase := lowerStr t }
              oB fB).2) := by
  intro storedLogs c t oB fB
  refine ⟨?_, ?_, ?_⟩
  · by_cases h : c.textSearch ≠ t <;> simp [updateClientTextSearch, h]
  · intro h
    simp [updateClientTextSearch, h]
  · intro h
    simp [updateClientTextSearch, h]

/-- Witness for C6: changing a fresh client's empty filter to `"err"`
resends history computed with the new filter. -/
theorem claim_C6_filter_change_resend_witness :
    (updateClientTextSearch ["error: x"] newClientData "err" true false).2.2
      = (sendLogHistoryToClient ["error: x"]
          { newClientData with
              textSearch := "err"
              textSearchLowerCase := lowerStr "err" } true false).2 :=
  (claim_C6_filter_change_resend ["error: x"] newClientData "err" true false).2.2
    (by decide)

/-- C7: a send failure for one viewer during a flush neither aborts
delivery to the other viewers nor touches the store: the flush leaves
`storedLogs` unchanged, every other open viewer with a non-empty
filtered result still receives its payload, and the failing viewer's
error is recorded on its registry entry instead of being raised. -/
theorem claim_C7_send_failure_isolated :
    ∀ (st : BState) (wsOpen sendFails : Nat → Bool),
      (broadcastBufferedMessages st wsOpen sendFails).1.storedLogs
        = st.storedLogs ∧
      (∀ id c, (id, c) ∈ st.clients → wsOpen id = true →
        sendFails id = false →
        filterLogsForClient c st.messageBuffer ≠ [] →
        (id, joinLines (filterLogsForClient c st.messageBuffer))
          ∈ (broadcastBufferedMessages st wsOpen sendFails).2) ∧
      (∀ id c, (id, c) ∈ st.clients → wsOpen id = true →
        sendFails id = true →
        filterLogsForClient c st.messageBuffer ≠ [] →
        (id, { c with lastErrorMessage := some "send failed" })
          ∈ (broadcastBufferedMessages st wsOpen sendFails).1.clients) := by
  intro st wsOpen sendFails
  exact ⟨broadcast_storedLogs st wsOpen sendFails,
    fun id c hm hw hf hne => flush_event_mem hm hw hf hne,
    fun id c hm hw hf hne => flush_fail_recorded hm hw hf hne⟩

/-- Witness for C7: two viewers, the first one's send throws, the
second still receives the batch. -/
theorem claim_C7_send_failure_isolated_witness :
    (1, "boom") ∈ (broadcastBufferedMessages
      { initialState with
          clients := [(0, newClientData), (1, newClientData)]
          messageBuffer := ["boom"] }
      (fun _ => true) (fun i => i == 0)).2 :=
  (claim_C7_send_failure_isolated
      { initialState with
          clients := [(0, newClientData), (1, newClientData)]
          messageBuffer := ["boom"] }
      (fun _ => true) (fun i => i == 0)).2.1
    1 newClientData (by simp) rfl rfl (by decide)

/-- C10: a flush over an empty pending batch sends nothing and only
clears the scheduled-flush marker; every flush event stems from a
non-empty per-viewer filtered result, so (the buffer holding no empty
lines) a flush payload is never the empty string — while the
history-replay path does produce an explicit empty payload. -/
theorem claim_C10_no_empty_flush_payload :
    ∀ (st : BState) (wsOpen sendFails : Nat → Bool),
      (st.messageBuffer = [] →
        broadcastBufferedMessages st wsOpen sendFails
          = ({ st with bufferTimeout := false }, [])) ∧
      (∀ id p, (id, p) ∈ (broadcastBufferedMessages st wsOpen sendFails).2 →
        ∃ c, (id, c) ∈ st.clients ∧
          filterLogsForClient c st.messageBuffer ≠ [] ∧
          p = joinLines (filterLogsForClient c st.messageBuffer)) ∧
      ((∀ l ∈ st.messageBuffer, l ≠ "") →
        ∀ id p, (id, p) ∈ (broadcastBufferedMessages st wsOpen sendFails).2 →
          p ≠ "") ∧
      (∃ (storedLogs : List String) (c : ClientData),
        (sendLogHistoryToClient storedLogs c true false).2 = some "") := by
  intro st wsOpen sendFails
  refine ⟨?_, ?_, ?_, ?_⟩
  · intro h
    unfold broadcastBufferedMessages
    rw [if_pos (by simpa [List.isEmpty_iff] using h)]
  · intro id p hp
    obtain ⟨c, hmem, _, _, hne, hp⟩ := mem_flush_events hp
    exact ⟨c, hmem, hne, hp⟩
  · intro hlines id p hp
    obtain ⟨c, _, _, _, hne, rfl⟩ := mem_flush_events hp
    exact joinLines_ne_empty _ hne
      (fun l hl => hlines l (filterLogsForClient_subset c st.messageBuffer hl))
  · exact ⟨["zebra"],
      { textSearch := "qq", textSearchLowerCase := "qq",
        messagesSent := 0, totalBytesSent := 0, lastErrorMessage := none },
      rfl⟩

/-- Witness for C10: flushing the empty initial buffer only clears the
marker. -/
theorem claim_C10_no_empty_flush_payload_witness :
    broadcastBufferedMessages initialState (fun _ => true) (fun _ => false)
      = ({ initialState with bufferTimeout := false }, []) :=
  (claim_C10_no_empty_flush_payload initialState
    (fun _ => true) (fun _ => false)).1 rfl

/-- C4 counterexample: a second `startTailProcess()` while the source
is still Starting (the backfill has been spawned but its close handler
has not yet set `isStarted`) is not a no-op — it spawns a second
backfill reader. -/
theorem claim_C4_counterexample :
    startTailProcess (startTailProcess initialState)
      ≠ startTailProcess initialState := by
  decide

/-- C4 amended: `startTailProcess` is a no-op once the source is Live
(`isStarted` set by the backfill close handler); registering a viewer
never spawns a source instance, so the instance count is independent
of the viewer count; but while Starting the guard does not yet hold. -/
theorem claim_C4_start_idempotent_live :
    (∀ st : BState, st.isStarted = true → startTailProcess st = st) ∧
    (∀ (st : BState) (id : Nat) (oB fB : Bool),
      (addClient st id oB fB).1.initialReadsSpawned = st.initialReadsSpawned ∧
      (addClient st id oB fB).1.tailsSpawned = st.tailsSpawned ∧
      (addClient st id oB fB).1.isStarted = st.isStarted) := by
  constructor
  · intro st h
    unfold startTailProcess
    rw [if_pos h]
  · intro st id oB fB
    exact ⟨rfl, rfl, rfl⟩

/-- Witness for C4: once the backfill close handler has run, a further
start call changes nothing. -/
theorem claim_C4_start_idempotent_live_witness :
    startTailProcess (handleInitialReadClose (startTailProcess initialState))
      = handleInitialReadClose (startTailProcess initialState) :=
  claim_C4_start_idempotent_live.1
    (handleInitialReadClose (startTailProcess initialState)) rfl

theorem runIngest_cons (wsOpen sendFails : Nat → Bool) (st : BState)
    (e : IngestEvent) (es : List IngestEvent) :
    runIngest wsOpen sendFails st (e :: es)
      = runIngest wsOpen sendFails (stepIngest wsOpen sendFails st e) es := rfl

theorem rawLines_of_blank {chunk : String} (hc : jsTrim chunk = "") :
    rawLines chunk = [] := by
  unfold rawLines
  simp [hc]

theorem handleTailData_storedLogs {st : BState} {wsOpen sendFails : Nat → Bool}
    {chunk : String} {xs : List String}
    (h : st.storedLogs = lastNList MAX_STORED_LOGS xs) :
    (handleTailData st wsOpen sendFails chunk).1.storedLogs
      = lastNList MAX_STORED_LOGS
          (xs ++ (rawLines chunk).map obfuscateIPAddresses) := by
  unfold handleTailData
  by_cases hc : jsTrim chunk = ""
  · simp only [hc, if_pos]
    rw [rawLines_of_blank hc]
    simpa using h
  · simp only [hc, if_neg, if_false]
    split
    · rw [broadcast_storedLogs]
      dsimp only
      rw [h, trimStored_eq_lastNList, lastNList_append_lastNList]
    · split
      · dsimp only
        rw [h, trimStored_eq_lastNList, lastNList_append_lastNList]
      · dsimp only
        rw [h, trimStored_eq_lastNList, lastNList_append_lastNList]

theorem runIngest_storedLogs (wsOpen sendFails : Nat → Bool) :
    ∀ (events : List IngestEvent) (st : BState) (xs : List String),
      st.storedLogs = lastNList MAX_STORED_LOGS xs →
      (runIngest wsOpen sendFails st events).storedLogs
        = lastNList MAX_STORED_LOGS
            (xs ++ events.flatMap
              fun e => (rawLines e.chunk).map obfuscateIPAddresses) := by
  intro events
  induction events with
  | nil =>
    intro st xs h
    simpa [runIngest] using h
  | cons e es ih =>
    intro st xs h
    rw [runIngest_cons]
    cases e with
    | backfill chunk =>
      have h' : (stepIngest wsOpen sendFails st (.backfill chunk)).storedLogs
          = lastNList MAX_STORED_LOGS
              (xs ++ (rawLines chunk).map obfuscateIPAddresses) := by
        unfold stepIngest handleInitialReadData
        dsimp only
        rw [h, trimStored_eq_lastNList, lastNList_append_lastNList]
      rw [ih _ _ h']
      simp [IngestEvent.chunk]
    | live chunk =>
      have h' : (stepIngest wsOpen sendFails st (.live chunk)).storedLogs
          = lastNList MAX_STORED_LOGS
              (xs ++ (rawLines chunk).map obfuscateIPAddresses) :=
        handleTailData_storedLogs h
      rw [ih _ _ h']
      simp [IngestEvent.chunk]

/-- C8: after any ingestion trace the store is exactly the bounded
suffix of the per-event raw lines each passed through the redactor
once; flush payloads repeat pending-buffer lines verbatim and history
payloads repeat stored lines verbatim, so no line is redacted a second
time on its way out. -/
theorem claim_C8_redacted_once :
    (∀ (wsOpen sendFails : Nat → Bool) (events : List IngestEvent),
      (runIngest wsOpen sendFails initialState events).storedLogs
        = lastNList MAX_STORED_LOGS
            (events.flatMap
              fun e => (rawLines e.chunk).map obfuscateIPAddresses)) ∧
    (∀ (st : BState) (wsOpen sendFails : Nat → Bool) (id : Nat) (p : String),
      (id, p) ∈ (broadcastBufferedMessages st wsOpen sendFails).2 →
      ∃ lines, p = joinLines lines ∧ ∀ l ∈ lines, l ∈ st.messageBuffer) ∧
    (∀ (storedLogs : List String) (c : ClientData) (oB fB : Bool) (p : String),
      (sendLogHistoryToClient storedLogs c oB fB).2 = some p →
      ∃ lines, p = joinLines lines ∧ ∀ l ∈ lines, l ∈ storedLogs) := by
  refine ⟨?_, ?_, ?_⟩
  · intro wsOpen sendFails events
    simpa using runIngest_storedLogs wsOpen sendFails events initialState [] rfl
  · intro st wsOpen sendFails id p hp
    obtain ⟨c, _, _, _, _, rfl⟩ := mem_flush_events hp
    exact ⟨filterLogsForClient c st.messageBuffer, rfl,
      fun l hl => filterLogsForClient_subset c st.messageBuffer hl⟩
  · intro storedLogs c oB fB p hp
    rcases sendLogHistory_some hp with hp0 | ⟨hp1, _⟩
    · exact ⟨[], by simp [hp0, joinLines], by simp⟩
    · exact ⟨historyFilteredLogs storedLogs c, hp1,
        fun l hl => historyFilteredLogs_subset storedLogs c hl⟩

/-- Witness for C8: a one-line history replay repeats the stored line
verbatim. -/
theorem claim_C8_redacted_once_witness :
    ∃ lines, "a" = joinLines lines ∧ ∀ l ∈ lines, l ∈ ["a"] :=
  claim_C8_redacted_once.2.2 ["a"] newClientData true false "a" rfl

/-! ## No-false-positive lemmas for the replacement engine -/

theorem charAt_eq_space_or_mem (s : List Char) (i : Nat) :
    charAt s i = ' ' ∨ charAt s i ∈ s := by
  unfold charAt
  rw [List.getD_eq_getD_get?]
  cases h : s.get? i with
  | none => left; rfl
  | some a => right; simpa using List.get?_mem h

theorem cgPred_nil {p : Char → Bool} {s : List Char}
    (h : ∀ c ∈ s, p c = false) (hsp : p ' ' = false) (i : Nat) :
    cgPred p s i = [] := by
  unfold cgPred
  rcases charAt_eq_space_or_mem s i with hc | hc
  · simp [hc, hsp]
  · simp [h _ hc]

theorem cgSeq_left_nil {f : CG} {s : List Char} {i : Nat}
    (h : f s i = []) (g : CG) : cgSeq f g s i = [] := by
  unfold cgSeq
  simp [h]

theorem cgSeq_right_nil {g : CG} {s : List Char}
    (h : ∀ j, g s j = []) (f : CG) (i : Nat) : cgSeq f g s i = [] := by
  unfold cgSeq
  simp [h]

theorem cgRep_nil {f : CG} {s : List Char}
    (h : ∀ j, f s j = []) {min : Nat} (hmin : min ≠ 0) (max i : Nat) :
    cgRep f min max s i = [] := by
  cases max with
  | zero => unfold cgRep; simp [hmin]
  | succ m => unfold cgRep; simp [h, hmin]

theorem cgWb_nil {body : CG} {s : List Char}
    (h : ∀ j, body s j = []) (i : Nat) : cgWb body s i = [] :=
  cgSeq_right_nil (fun j => cgSeq_left_nil (h j) _) _ i

theorem noDot_char {s : List Char} (h : ∀ c ∈ s, c ≠ '.') (j : Nat) :
    cgChar '.' s j = [] := by
  unfold cgChar
  exact cgPred_nil (fun c hc => by simp [h c hc]) (by decide) j

theorem noColon_char {s : List Char} (h : ∀ c ∈ s, c ≠ ':') (j : Nat) :
    cgChar ':' s j = [] := by
  unfold cgChar
  exact cgPred_nil (fun c hc => by simp [h c hc]) (by decide) j

theorem cgMatch_ipv4_none {s : List Char} (h : ∀ c ∈ s, c ≠ '.') (i : Nat) :
    cgMatch cgIPv4 s i = none := by
  have h1 : ∀ j, cgSeq cgOctet (cgChar '.') s j = [] :=
    fun j => cgSeq_right_nil (noDot_char h) _ j
  have h2 : ∀ j, cgRep (cgSeq cgOctet (cgChar '.')) 3 3 s j = [] :=
    fun j => cgRep_nil h1 (by decide) 3 j
  have h3 : ∀ j, cgSeq (cgRep (cgSeq cgOctet (cgChar '.')) 3 3)
      (cgSeq cgOctet (cgAssert wordBoundary)) s j = [] :=
    fun j => cgSeq_left_nil (h2 j) _
  unfold cgMatch cgIPv4
  rw [cgSeq_right_nil h3]
  rfl

theorem cgMatch_ipv6_none {s : List Char} (h : ∀ c ∈ s, c ≠ ':') (i : Nat) :
    cgMatch cgIPv6 s i = none := by
  have hcol : ∀ j, cgChar ':' s j = [] := noColon_char h
  have hHC : ∀ j, cgHexColon s j = [] :=
    fun j => cgSeq_right_nil hcol _ j
  have hRep : ∀ min, min ≠ 0 → ∀ max j, cgRep cgHexColon min max s j = [] :=
    fun _ hmin => cgRep_nil hHC hmin
  have a1 : ∀ j, cgWb (cgSeq (cgRep cgHexColon 7 7) cgHex4) s j = [] :=
    fun j => cgWb_nil (fun k => cgSeq_left_nil (hRep 7 (by decide) 7 k) _) j
  have a2 : ∀ j, cgWb (cgSeq (cgRep cgHexColon 1 7) (cgChar ':')) s j = [] :=
    fun j => cgWb_nil (fun k => cgSeq_left_nil (hRep 1 (by decide) 7 k) _) j
  have a3 : ∀ j, cgWb (cgSeq (cgRep cgHexColon 1 6) (cgSeq (cgChar ':') cgHex4)) s j = [] :=
    fun j => cgWb_nil (fun k => cgSeq_left_nil (hRep 1 (by decide) 6 k) _) j
  have a4 : ∀ j, cgWb (cgSeq (cgRep cgHexColon 1 5) (cgRep cgColonHex 1 2)) s j = [] :=
    fun j => cgWb_nil (fun k => cgSeq_left_nil (hRep 1 (by decide) 5 k) _) j
  have a5 : ∀ j, cgWb (cgSeq (cgRep cgHexColon 1 4) (cgRep cgColonHex 1 3)) s j = [] :=
    fun j => cgWb_nil (fun k => cgSeq_left_nil (hRep 1 (by decide) 4 k) _) j
  have a6 : ∀ j, cgWb (cgSeq (cgRep cgHexColon 1 3) (cgRep cgColonHex 1 4)) s j = [] :=
    fun j => cgWb_nil (fun k => cgSeq_left_nil (hRep 1 (by decide) 3 k) _) j
  have a7 : ∀ j, cgWb (cgSeq (cgRep cgHexColon 1 2) (cgRep cgColonHex 1 5)) s j = [] :=
    fun j => cgWb_nil (fun k => cgSeq_left_nil (hRep 1 (by decide) 2 k) _) j
  have a8 : ∀ j, cgWb (cgSeq cgHex4 (cgSeq (cgChar ':') (cgRep cgColonHex 1 6))) s j = [] :=
    fun j => cgWb_nil (fun k => cgSeq_right_nil
      (fun k2 => cgSeq_left_nil (hcol k2) _) _ k) j
  have a9 : ∀ j, cgWb (cgSeq (cgChar ':') (cgSeq (cgChar ':')
      (cgSeq (cgRep cgHexColon 0 6) cgHex4))) s j = [] :=
    fun j => cgWb_nil (fun k => cgSeq_left_nil (hcol k) _) j
  unfold cgMatch cgIPv6 cgAlt
  simp only [List.map_cons, List.map_nil, a1, a2, a3, a4, a5, a6, a7, a8, a9]
  rfl

theorem replaceLoop_none {m : List Char → Nat → Option Nat}
    {repl : List Char → List Char} {s : List Char}
    (h : ∀ i, m s i = none) :
    ∀ (fuel i : Nat), replaceLoop m repl s fuel i = s.drop i := by
  intro fuel
  induction fuel with
  | zero => intro i; rfl
  | succ n ih =>
    intro i
    unfold replaceLoop
    by_cases hi : i < s.length
    · rw [if_pos hi, h i]
      dsimp only
      rw [ih (i + 1), List.drop_eq_getElem_cons hi]
      congr 1
      unfold charAt
      exact List.getD_eq_getElem s ' ' hi
    · rw [if_neg hi]
      symm
      exact List.drop_eq_nil_of_le (by omega)

theorem runReplace_none {m : List Char → Nat → Option Nat}
    {repl : List Char → List Char} {s : List Char}
    (h : ∀ i, m s i = none) : runReplace m repl s = s := by
  unfold runReplace
  rw [replaceLoop_none h]
  rfl

/-! ## Inversion lemmas for the pattern combinators -/

theorem mem_of_head?_eq {α : Type} {l : List α} {x : α}
    (h : l.head? = some x) : x ∈ l := by
  cases l with
  | nil => simp at h
  | cons a t =>
    simp at h
    simp [h]

theorem mem_cgSeq {f g : CG} {s : List Char} {i n : Nat} :
    n ∈ cgSeq f g s i ↔ ∃ a, a ∈ f s i ∧ ∃ b, b ∈ g s (i + a) ∧ n = a + b := by
  unfold cgSeq
  constructor
  · intro h
    obtain ⟨a, ha, hb⟩ := List.mem_flatMap.mp h
    obtain ⟨b, hbmem, hq⟩ := List.mem_map.mp hb
    exact ⟨a, ha, b, hbmem, hq.symm⟩
  · rintro ⟨a, ha, b, hb, rfl⟩
    exact List.mem_flatMap.mpr ⟨a, ha, List.mem_map.mpr ⟨b, hb, rfl⟩⟩

theorem mem_cgAssert {a : List Char → Nat → Bool} {s : List Char} {i n : Nat}
    (h : n ∈ cgAssert a s i) : n = 0 ∧ a s i = true := by
  unfold cgAssert at h
  split at h <;> simp_all

theorem mem_cgPred {p : Char → Bool} {s : List Char} {i n : Nat}
    (h : n ∈ cgPred p s i) :
    n = 1 ∧ p (charAt s i) = true ∧ i < s.length := by
  unfold cgPred at h
  split at h
  · next hc =>
    rw [Bool.and_eq_true] at hc
    simp at h
    exact ⟨h, hc.1, of_decide_eq_true hc.2⟩
  · simp at h

theorem mem_cgChar {c : Char} {s : List Char} {i n : Nat}
    (h : n ∈ cgChar c s i) :
    n = 1 ∧ charAt s i = c ∧ i < s.length := by
  unfold cgChar at h
  obtain ⟨h1, h2, h3⟩ := mem_cgPred h
  exact ⟨h1, of_decide_eq_true h2, h3⟩

theorem cgRep_zero_zero (f : CG) (s : List Char) (i : Nat) :
    cgRep f 0 0 s i = [0] := by
  unfold cgRep
  rfl

theorem mem_cgRep_pos {f : CG} {s : List Char} {min max i n : Nat}
    (hmin : min ≠ 0) (h : n ∈ cgRep f min max s i) :
    ∃ a, a ∈ f s i ∧ ∃ b, b ∈ cgRep f (min - 1) (max - 1) s (i + a) ∧
      n = a + b := by
  cases max with
  | zero =>
    unfold cgRep at h
    rw [if_neg hmin] at h
    simp at h
  | succ m =>
    unfold cgRep at h
    rw [if_neg hmin, List.append_nil] at h
    obtain ⟨a, ha, hb⟩ := List.mem_flatMap.mp h
    obtain ⟨b, hbmem, hq⟩ := List.mem_map.mp hb
    exact ⟨a, ha, b, by simpa using hbmem, hq.symm⟩

theorem mem_cgRep01 {g : CG} {s : List Char} {i n : Nat}
    (h : n ∈ cgRep g 0 1 s i) : n = 0 ∨ n ∈ g s i := by
  unfold cgRep at h
  rw [if_pos rfl] at h
  rcases List.mem_append.mp h with h1 | h2
  · right
    obtain ⟨a, ha, hx⟩ := List.mem_flatMap.mp h1
    rw [cgRep_zero_zero] at hx
    simp at hx
    rwa [hx]
  · left
    simpa using h2

/-! ## Substring helpers -/

theorem sub_split (s : List Char) (i a b : Nat) :
    (s.drop i).take (a + b) = (s.drop i).take a ++ (s.drop (i + a)).take b := by
  rw [List.take_add]
  congr 1
  rw [List.drop_drop]

theorem sub_one {s : List Char} {p : Nat} (hp : p < s.length) :
    (s.drop p).take 1 = [charAt s p] := by
  rw [List.drop_eq_getElem_cons hp]
  have hch : charAt s p = s[p] := List.getD_eq_getElem s ' ' hp
  rw [hch]
  rfl

theorem sub_chars {s : List Char} {p n : Nat} {P : Char → Bool}
    (h : ∀ k, k < n → p + k < s.length ∧ P (charAt s (p + k)) = true) :
    ∀ c ∈ (s.drop p).take n, P c = true := by
  intro c hc
  obtain ⟨k, hk, hval⟩ := List.mem_iff_getElem.mp hc
  have hk1 : k < n := by
    simp [List.length_take] at hk
    omega
  have hk2 : p + k < s.length := by
    simp [List.length_take, List.length_drop] at hk
    omega
  obtain ⟨hb, hP⟩ := h k hk1
  have hch : charAt s (p + k) = c := by
    rw [← hval, List.getElem_take, List.getElem_drop]
    exact List.getD_eq_getElem s ' ' hk2
  rwa [hch] at hP

theorem sub_ne_nil {s : List Char} {p n : Nat} (hn : n ≠ 0)
    (hp : p < s.length) : (s.drop p).take n ≠ [] := by
  intro h
  have := congrArg List.length h
  simp [List.length_take, List.length_drop] at this
  omega

theorem mem_sub_of_charAt {s : List Char} {p n k : Nat} (hk : k < n)
    (hb : p + k < s.length) : charAt s (p + k) ∈ (s.drop p).take n := by
  apply List.mem_iff_getElem.mpr
  refine ⟨k, ?_, ?_⟩
  · simp [List.length_take, List.length_drop]
    omega
  · rw [List.getElem_take, List.getElem_drop]
    exact (List.getD_eq_getElem s ' ' hb).symm

/-! ## Octet inversion for the IPv4 pattern -/

theorem isDigit_of_05 {c : Char} (hp : ('0' ≤ c && c ≤ '5') = true) :
    c.isDigit = true := by
  rw [Bool.and_eq_true] at hp
  have h2 := of_decide_eq_true hp.2
  have h9 : c ≤ '9' := le_trans h2 (by decide)
  simp [Char.isDigit]
  exact ⟨of_decide_eq_true hp.1, h9⟩

theorem isDigit_of_04 {c : Char} (hp : ('0' ≤ c && c ≤ '4') = true) :
    c.isDigit = true := by
  rw [Bool.and_eq_true] at hp
  have h2 := of_decide_eq_true hp.2
  have h9 : c ≤ '9' := le_trans h2 (by decide)
  simp [Char.isDigit]
  exact ⟨of_decide_eq_true hp.1, h9⟩

theorem isDigit_of_01 {c : Char} (hp : (c = '0' || c = '1') = true) :
    c.isDigit = true := by
  rcases Bool.or_eq_true .. |>.mp hp with h | h <;>
    rw [of_decide_eq_true h] <;> decide

/-- Inverting one octet alternative: it consumes one to three
characters, all decimal digits, all in bounds. -/
theorem mem_cgOctet {s : List Char} {i n : Nat} (h : n ∈ cgOctet s i) :
    1 ≤ n ∧ n ≤ 3 ∧
      ∀ k, k < n → i + k < s.length ∧ (charAt s (i + k)).isDigit = true := by
  unfold cgOctet cgAlt at h
  simp only [List.map_cons, List.map_nil, List.flatten_cons, List.flatten_nil,
    List.append_nil] at h
  rcases List.mem_append.mp h with h | h
  · obtain ⟨a, ha, b, hb, rfl⟩ := mem_cgSeq.mp h
    obtain ⟨ha1, ha2, ha3⟩ := mem_cgChar ha
    subst ha1
    obtain ⟨b1, hb1, b2, hb2, rfl⟩ := mem_cgSeq.mp hb
    obtain ⟨hb11, hb12, hb13⟩ := mem_cgChar hb1
    subst hb11
    obtain ⟨hb21, hb22, hb23⟩ := mem_cgPred hb2
    subst hb21
    refine ⟨by omega, by omega, ?_⟩
    intro k hk
    have hk3 : k = 0 ∨ k = 1 ∨ k = 2 := by omega
    rcases hk3 with rfl | rfl | rfl
    · exact ⟨ha3, by rw [show i + 0 = i from rfl, ha2]; decide⟩
    · exact ⟨hb13, by rw [show charAt s (i + 1) = '5' from hb12]; decide⟩
    · exact ⟨hb23, isDigit_of_05 hb22⟩
  rcases List.mem_append.mp h with h | h
  · obtain ⟨a, ha, b, hb, rfl⟩ := mem_cgSeq.mp h
    obtain ⟨ha1, ha2, ha3⟩ := mem_cgChar ha
    subst ha1
    obtain ⟨b1, hb1, b2, hb2, rfl⟩ := mem_cgSeq.mp hb
    obtain ⟨hb11, hb12, hb13⟩ := mem_cgPred hb1
    subst hb11
    obtain ⟨hb21, hb22, hb23⟩ := mem_cgPred hb2
    subst hb21
    refine ⟨by omega, by omega, ?_⟩
    intro k hk
    have hk3 : k = 0 ∨ k = 1 ∨ k = 2 := by omega
    rcases hk3 with rfl | rfl | rfl
    · exact ⟨ha3, by rw [show i + 0 = i from rfl, ha2]; decide⟩
    · exact ⟨hb13, isDigit_of_04 hb12⟩
    · exact ⟨hb23, hb22⟩
  · obtain ⟨a, ha, b, hb, rfl⟩ := mem_cgSeq.mp h
    obtain ⟨b1, hb1, b2, hb2, rfl⟩ := mem_cgSeq.mp hb
    obtain ⟨hb11, hb12, hb13⟩ := mem_cgPred hb1
    subst hb11
    rcases mem_cgRep01 ha with rfl | ha'
    · rcases mem_cgRep01 hb2 with rfl | hb2'
      · refine ⟨by omega, by omega, ?_⟩
        intro k hk
        have hk0 : k = 0 := by omega
        subst hk0
        exact ⟨hb13, hb12⟩
      · obtain ⟨hb21, hb22, hb23⟩ := mem_cgPred hb2'
        subst hb21
        refine ⟨by omega, by omega, ?_⟩
        intro k hk
        have hk2 : k = 0 ∨ k = 1 := by omega
        rcases hk2 with rfl | rfl
        · exact ⟨hb13, hb12⟩
        · exact ⟨hb23, hb22⟩
    · obtain ⟨ha1, ha2, ha3⟩ := mem_cgPred ha'
      subst ha1
      rcases mem_cgRep01 hb2 with rfl | hb2'
      · refine ⟨by omega, by omega, ?_⟩
        intro k hk
        have hk2 : k = 0 ∨ k = 1 := by omega
        rcases hk2 with rfl | rfl
        · exact ⟨ha3, isDigit_of_01 ha2⟩
        · exact ⟨hb13, hb12⟩
      · obtain ⟨hb21, hb22, hb23⟩ := mem_cgPred hb2'
        subst hb21
        refine ⟨by omega, by omega, ?_⟩
        intro k hk
        have hk3 : k = 0 ∨ k = 1 ∨ k = 2 := by omega
        rcases hk3 with rfl | rfl | rfl
        · exact ⟨ha3, isDigit_of_01 ha2⟩
        · exact ⟨hb13, hb12⟩
        · exact ⟨hb23, hb22⟩

/-- Inverting one `octet '.'` group of the IPv4 pattern: the consumed
span is a non-empty all-digit octet followed by the dot, composably for
any continuation. -/
theorem octet_dot_span {s : List Char} {i n : Nat}
    (h : n ∈ cgSeq cgOctet (cgChar '.') s i) :
    ∃ o : List Char, ∃ ol : Nat, n = ol + 1 ∧ o = (s.drop i).take ol ∧
      o ≠ [] ∧ (∀ c ∈ o, c.isDigit = true) ∧
      ∀ rest, (s.drop i).take (n + rest)
        = o ++ '.' :: ((s.drop (i + n)).take rest) := by
  obtain ⟨ol, hol, d, hd, rfl⟩ := mem_cgSeq.mp h
  obtain ⟨hd1, hd2, hd3⟩ := mem_cgChar hd
  subst hd1
  obtain ⟨hge, _, hch⟩ := mem_cgOctet hol
  refine ⟨(s.drop i).take ol, ol, rfl, rfl, ?_, ?_, ?_⟩
  · have h0 := hch 0 (by omega)
    exact sub_ne_nil (by omega) (by omega)
  · exact sub_chars fun k hk => hch k hk
  · intro rest
    rw [sub_split s i (ol + 1) rest, sub_split s i ol 1, sub_one hd3, hd2]
    simp

/-- Inverting the final octet: a non-empty all-digit span. -/
theorem octet_span {s : List Char} {i n : Nat} (h : n ∈ cgOctet s i) :
    (s.drop i).take n ≠ [] ∧ ∀ c ∈ (s.drop i).take n, c.isDigit = true := by
  obtain ⟨hge, _, hch⟩ := mem_cgOctet h
  constructor
  · have h0 := hch 0 (by omega)
    exact sub_ne_nil (by omega) (by omega)
  · exact sub_chars fun k hk => hch k hk

/-- Every span the IPv4 pattern matches is a dotted quad of non-empty
all-digit octets. -/
theorem ipv4_span_shape {s : List Char} {i len : Nat}
    (h : cgMatch cgIPv4 s i = some len) :
    ∃ o1 o2 o3 o4 : List Char,
      (s.drop i).take len = o1 ++ '.' :: (o2 ++ '.' :: (o3 ++ '.' :: o4)) ∧
      o1 ≠ [] ∧ o2 ≠ [] ∧ o3 ≠ [] ∧ o4 ≠ [] ∧
      (∀ c ∈ o1, c.isDigit = true) ∧ (∀ c ∈ o2, c.isDigit = true) ∧
      (∀ c ∈ o3, c.isDigit = true) ∧ (∀ c ∈ o4, c.isDigit = true) := by
  unfold cgMatch at h
  have hlen := mem_of_head?_eq h
  unfold cgIPv4 at hlen
  obtain ⟨a0, ha0, r, hr, rfl⟩ := mem_cgSeq.mp hlen
  obtain ⟨ha00, _⟩ := mem_cgAssert ha0
  subst ha00
  simp only [Nat.zero_add, Nat.add_zero] at hr ⊢
  obtain ⟨r1, hr1, f, hf, rfl⟩ := mem_cgSeq.mp hr
  obtain ⟨c1, hc1, r2, hr2, rfl⟩ := mem_cgRep_pos (by decide) hr1
  obtain ⟨c2, hc2, r3, hr3, rfl⟩ := mem_cgRep_pos (by decide) hr2
  obtain ⟨c3, hc3, r4, hr4, rfl⟩ := mem_cgRep_pos (by decide) hr3
  rw [cgRep_zero_zero] at hr4
  simp only [List.mem_singleton] at hr4
  subst hr4
  obtain ⟨o4l, ho4, w, hw, rfl⟩ := mem_cgSeq.mp hf
  obtain ⟨hw0, _⟩ := mem_cgAssert hw
  subst hw0
  obtain ⟨o1, o1l, rfl, ho1def, hne1, hdig1, hcomp1⟩ := octet_dot_span hc1
  obtain ⟨o2, o2l, rfl, ho2def, hne2, hdig2, hcomp2⟩ := octet_dot_span hc2
  obtain ⟨o3, o3l, rfl, ho3def, hne3, hdig3, hcomp3⟩ := octet_dot_span hc3
  have hpos4 : i + (o1l + 1 + (o2l + 1 + (o3l + 1 + 0)))
      = i + (o1l + 1) + (o2l + 1) + (o3l + 1) := by omega
  rw [hpos4] at ho4
  obtain ⟨hne4, hdig4⟩ := octet_span ho4
  refine ⟨o1, o2, o3,
    (s.drop (i + (o1l + 1) + (o2l + 1) + (o3l + 1))).take o4l,
    ?_, hne1, hne2, hne3, hne4, hdig1, hdig2, hdig3, hdig4⟩
  have hlen_eq : o1l + 1 + (o2l + 1 + (o3l + 1 + 0)) + (o4l + 0)
      = (o1l + 1) + ((o2l + 1) + ((o3l + 1) + o4l)) := by omega
  rw [hlen_eq, hcomp1, hcomp2, hcomp3]

/-! ## The split and replacement callbacks on shaped spans -/

theorem jsSplitChar_ne_nil (sep : Char) (t : List Char) :
    jsSplitChar sep t ≠ [] := by
  induction t with
  | nil => simp [jsSplitChar]
  | cons c rest ih =>
    cases hr : jsSplitChar sep rest with
    | nil => exact absurd hr ih
    | cons g gs =>
      unfold jsSplitChar
      rw [hr]
      dsimp only
      split <;> simp

theorem jsSplitChar_not_mem {sep : Char} {t : List Char} (h : sep ∉ t) :
    jsSplitChar sep t = [t] := by
  induction t with
  | nil => rfl
  | cons c rest ih =>
    have hc : ¬ c = sep := fun e => h (e ▸ List.mem_cons_self c rest)
    have hrest : sep ∉ rest := fun hm => h (List.mem_cons_of_mem _ hm)
    unfold jsSplitChar
    rw [ih hrest]
    simp [hc]

theorem jsSplitChar_append {sep : Char} {a : List Char} (ha : sep ∉ a)
    (b : List Char) :
    jsSplitChar sep (a ++ sep :: b) = a :: jsSplitChar sep b := by
  induction a with
  | nil =>
    show jsSplitChar sep (sep :: b) = [] :: jsSplitChar sep b
    cases hr : jsSplitChar sep b with
    | nil => exact absurd hr (jsSplitChar_ne_nil sep b)
    | cons g gs =>
      conv_lhs => unfold jsSplitChar
      rw [hr]
      dsimp only
      simp
  | cons c a' ih =>
    have hc : ¬ c = sep := fun e => ha (e ▸ List.mem_cons_self c a')
    have ha' : sep ∉ a' := fun hm => ha (List.mem_cons_of_mem _ hm)
    show jsSplitChar sep (c :: (a' ++ sep :: b)) = (c :: a') :: jsSplitChar sep b
    conv_lhs => unfold jsSplitChar
    rw [ih ha']
    dsimp only
    simp [hc]

theorem not_dot_of_digits {o : List Char} (h : ∀ c ∈ o, c.isDigit = true) :
    '.' ∉ o := fun hm => by simpa using h _ hm

/-- The IPv4 replacement callback on a dotted quad with dot-free parts:
the first two octets are retained, the rest is the fixed mask. -/
theorem ipv4Repl_dotted {o1 o2 o3 o4 : List Char}
    (h1 : '.' ∉ o1) (h2 : '.' ∉ o2) (h3 : '.' ∉ o3) (h4 : '.' ∉ o4) :
    ipv4Repl (o1 ++ '.' :: (o2 ++ '.' :: (o3 ++ '.' :: o4)))
      = o1 ++ '.' :: o2 ++ ".xxx.xxx".data := by
  unfold ipv4Repl
  rw [jsSplitChar_append h1, jsSplitChar_append h2, jsSplitChar_append h3,
    jsSplitChar_not_mem h4]
  rfl

/-! ## The tiling of a replace pass -/

theorem replacePieces_tiles (m : List Char → Nat → Option Nat) (s : List Char) :
    ∀ (fuel i : Nat),
      ((replacePieces m s fuel i).map Prod.fst).flatten = s.drop i := by
  intro fuel
  induction fuel with
  | zero => intro i; simp [replacePieces]
  | succ n ih =>
    intro i
    unfold replacePieces
    by_cases hi : i < s.length
    · rw [if_pos hi]
      have hchar : charAt s i = s[i] := List.getD_eq_getElem s ' ' hi
      cases hm : m s i with
      | none =>
        simp only [List.map_cons, List.flatten_cons, ih]
        rw [List.drop_eq_getElem_cons hi, hchar]
        rfl
      | some len =>
        dsimp only
        by_cases hl : len = 0
        · rw [if_pos hl]
          simp only [List.map_cons, List.flatten_cons, ih]
          rw [List.drop_eq_getElem_cons hi, hchar]
          rfl
        · rw [if_neg hl]
          simp only [List.map_cons, List.flatten_cons, ih]
          rw [show s.drop (i + len) = (s.drop i).drop len from (List.drop_drop ..).symm]
          exact List.take_append_drop len (s.drop i)
    · rw [if_neg hi]
      simp only [List.map_nil, List.flatten_nil]
      exact (List.drop_eq_nil_of_le (by omega)).symm

theorem replacePieces_output (m : List Char → Nat → Option Nat)
    (repl : List Char → List Char) (s : List Char) :
    ∀ (fuel i : Nat), replaceLoop m repl s fuel i
      = ((replacePieces m s fuel i).map
          (fun pc => if pc.2 then repl pc.1 else pc.1)).flatten := by
  intro fuel
  induction fuel with
  | zero => intro i; simp [replaceLoop, replacePieces]
  | succ n ih =>
    intro i
    unfold replaceLoop replacePieces
    by_cases hi : i < s.length
    · rw [if_pos hi, if_pos hi]
      cases hm : m s i with
      | none => simp [ih]
      | some len =>
        dsimp only
        by_cases hl : len = 0
        · rw [if_pos hl, if_pos hl]
          simp [ih]
        · rw [if_neg hl, if_neg hl]
          simp [ih]
    · rw [if_neg hi, if_neg hi]
      rfl

theorem replacePieces_matched (m : List Char → Nat → Option Nat) (s : List Char) :
    ∀ (fuel i : Nat), ∀ pc ∈ replacePieces m s fuel i, pc.2 = true →
      ∃ j len, m s j = some len ∧ len ≠ 0 ∧ pc.1 = (s.drop j).take len := by
  intro fuel
  induction fuel with
  | zero =>
    intro i pc hpc htrue
    simp [replacePieces] at hpc
    rw [hpc] at htrue
    simp at htrue
  | succ n ih =>
    intro i pc hpc htrue
    unfold replacePieces at hpc
    by_cases hi : i < s.length
    · rw [if_pos hi] at hpc
      cases hm : m s i with
      | none =>
        rw [hm] at hpc
        dsimp only at hpc
        rcases List.mem_cons.mp hpc with rfl | hmem
        · simp at htrue
        · exact ih (i + 1) pc hmem htrue
      | some len =>
        rw [hm] at hpc
        dsimp only at hpc
        by_cases hl : len = 0
        · rw [if_pos hl] at hpc
          rcases List.mem_cons.mp hpc with rfl | hmem
          · simp at htrue
          · exact ih (i + 1) pc hmem htrue
        · rw [if_neg hl] at hpc
          rcases List.mem_cons.mp hpc with rfl | hmem
          · exact ⟨i, len, hm, hl, rfl⟩
          · exact ih (i + len) pc hmem htrue
    · rw [if_neg hi] at hpc
      simp at hpc

/-! ## A colon inside every IPv6 match -/

theorem mem_cgWb {body : CG} {s : List Char} {i n : Nat}
    (h : n ∈ cgWb body s i) : ∃ b, b ∈ body s i ∧ n = b := by
  unfold cgWb at h
  obtain ⟨a0, ha0, r, hr, rfl⟩ := mem_cgSeq.mp h
  obtain ⟨ha00, _⟩ := mem_cgAssert ha0
  subst ha00
  obtain ⟨b, hb, w, hw, rfl⟩ := mem_cgSeq.mp hr
  obtain ⟨hw0, _⟩ := mem_cgAssert hw
  subst hw0
  exact ⟨b, by simpa using hb, by omega⟩

theorem mem_cgHexColon {s : List Char} {i n : Nat} (h : n ∈ cgHexColon s i) :
    ∃ hl, n = hl + 1 ∧ i + hl < s.length ∧ charAt s (i + hl) = ':' := by
  obtain ⟨a, ha, b, hb, rfl⟩ := mem_cgSeq.mp h
  obtain ⟨hb1, hb2, hb3⟩ := mem_cgChar hb
  subst hb1
  exact ⟨a, rfl, hb3, hb2⟩

theorem rep_hexColon_colon {s : List Char} {min max p n : Nat}
    (hmin : min ≠ 0) (h : n ∈ cgRep cgHexColon min max s p) :
    ∃ k, k < n ∧ p + k < s.length ∧ charAt s (p + k) = ':' := by
  obtain ⟨a, ha, b, hb, rfl⟩ := mem_cgRep_pos hmin h
  obtain ⟨hl, rfl, hbound, hcol⟩ := mem_cgHexColon ha
  exact ⟨hl, by omega, hbound, hcol⟩

theorem colon_in_rep_alt {s : List Char} {j n min max : Nat} {tail : CG}
    (hmin : min ≠ 0)
    (h : n ∈ cgWb (cgSeq (cgRep cgHexColon min max) tail) s j) :
    ':' ∈ (s.drop j).take n := by
  obtain ⟨b, hb, rfl⟩ := mem_cgWb h
  obtain ⟨a, ha, b2, hb2, rfl⟩ := mem_cgSeq.mp hb
  obtain ⟨k, hk, hkb, hkc⟩ := rep_hexColon_colon hmin ha
  have hmem := mem_sub_of_charAt (n := a + b2) (by omega) hkb
  rwa [hkc] at hmem

/-- Every span the IPv6 pattern matches contains a colon. -/
theorem ipv6_span_colon {s : List Char} {j len : Nat}
    (h : cgMatch cgIPv6 s j = some len) : ':' ∈ (s.drop j).take len := by
  unfold cgMatch at h
  have hlen := mem_of_head?_eq h
  unfold cgIPv6 cgAlt at hlen
  simp only [List.map_cons, List.map_nil, List.flatten_cons, List.flatten_nil,
    List.append_nil] at hlen
  rcases List.mem_append.mp hlen with h1 | hlen
  · exact colon_in_rep_alt (by decide) h1
  rcases List.mem_append.mp hlen with h1 | hlen
  · exact colon_in_rep_alt (by decide) h1
  rcases List.mem_append.mp hlen with h1 | hlen
  · exact colon_in_rep_alt (by decide) h1
  rcases List.mem_append.mp hlen with h1 | hlen
  · exact colon_in_rep_alt (by decide) h1
  rcases List.mem_append.mp hlen with h1 | hlen
  · exact colon_in_rep_alt (by decide) h1
  rcases List.mem_append.mp hlen with h1 | hlen
  · exact colon_in_rep_alt (by decide) h1
  rcases List.mem_append.mp hlen with h1 | hlen
  · exact colon_in_rep_alt (by decide) h1
  rcases List.mem_append.mp hlen with h1 | hlen
  · -- alt8: `h:(:h){1,6}`
    obtain ⟨b, hb, rfl⟩ := mem_cgWb h1
    obtain ⟨a, ha, b2, hb2, rfl⟩ := mem_cgSeq.mp hb
    obtain ⟨b1, hb1, b3, hb3, rfl⟩ := mem_cgSeq.mp hb2
    obtain ⟨hb11, hb12, hb13⟩ := mem_cgChar hb1
    subst hb11
    have hmem := mem_sub_of_charAt (n := a + (1 + b3)) (k := a) (by omega) hb13
    rwa [hb12] at hmem
  rcases List.mem_append.mp hlen with h1 | h1
  · -- alt9: `::(h:){0,6}h`
    obtain ⟨b, hb, rfl⟩ := mem_cgWb h1
    obtain ⟨a, ha, b2, hb2, rfl⟩ := mem_cgSeq.mp hb
    obtain ⟨ha1, ha2, ha3⟩ := mem_cgChar ha
    subst ha1
    have hmem := mem_sub_of_charAt (n := 1 + b2) (k := 0) (by omega)
      (by simpa using ha3)
    rw [show j + 0 = j from rfl] at hmem
    rwa [ha2] at hmem
  · exact colon_in_rep_alt (by decide) h1

/-! ## The IPv6 replacement callback on colon-bearing spans -/

theorem exists_first_split {sep : Char} {t : List Char} (h : sep ∈ t) :
    ∃ a b, t = a ++ sep :: b ∧ sep ∉ a := by
  induction t with
  | nil => simp at h
  | cons c rest ih =>
    by_cases hcs : c = sep
    · exact ⟨[], rest, by simp [hcs], by simp⟩
    · have hmem : sep ∈ rest := by
        rcases List.mem_cons.mp h with h1 | h2
        · exact absurd h1.symm hcs
        · exact h2
      obtain ⟨a, b, hab, hna⟩ := ih hmem
      refine ⟨c :: a, b, by rw [hab]; rfl, ?_⟩
      intro hm
      rcases List.mem_cons.mp hm with h1 | h2
      · exact hcs h1.symm
      · exact hna h2

theorem beforeDoubleColon_decomp {t : List Char}
    (h : containsSeq t (':' :: [':']) = true) :
    ∃ r, t = beforeDoubleColon t ++ ':' :: ':' :: r := by
  induction t with
  | nil => simp [containsSeq] at h
  | cons c rest ih =>
    unfold beforeDoubleColon
    by_cases hcc : c = ':' ∧ rest.head? = some ':'
    · rw [if_pos hcc]
      obtain ⟨rfl, hh⟩ := hcc
      cases rest with
      | nil => simp at hh
      | cons c2 r2 =>
        simp at hh
        subst hh
        exact ⟨r2, rfl⟩
    · rw [if_neg hcc]
      have hrest : containsSeq rest (':' :: [':']) = true := by
        unfold containsSeq at h
        rcases Bool.or_eq_true .. |>.mp h with hsw | hco
        · exfalso
          cases rest with
          | nil => simp [startsWithSeq] at hsw
          | cons c2 r2 =>
            simp [startsWithSeq] at hsw
            exact hcc ⟨hsw.1, by simp [hsw.2]⟩
        · exact hco
      obtain ⟨r, hr⟩ := ih hrest
      exact ⟨r, by rw [List.cons_append, ← hr]⟩

/-- The IPv6 replacement callback on any span containing a colon: it
keeps a leading slice of the span — its first one or two
colon-separated segments — and replaces everything else with one of
the three fixed mask strings. -/
theorem ipv6Repl_masks (t : List Char) (hc : ':' ∈ t) :
    ∃ keep rest mask,
      t = keep ++ rest ∧
      ipv6Repl t = keep ++ mask ∧
      (mask = "::xxxx:xxxx:xxxx:xxxx".data ∨
        mask = ":xxxx::xxxx:xxxx:xxxx:xxxx".data ∨
        mask = ":xxxx:xxxx:xxxx:xxxx:xxxx:xxxx".data) ∧
      (keep = (jsSplitChar ':' t).getD 0 [] ∨
        keep = (jsSplitChar ':' t).getD 0 [] ++ ':' :: (jsSplitChar ':' t).getD 1 []) := by
  unfold ipv6Repl
  by_cases hdc : containsSeq t (':' :: [':']) = true
  · rw [if_pos hdc]
    dsimp only
    obtain ⟨r0, hr0⟩ := beforeDoubleColon_decomp hdc
    by_cases hbc : ':' ∈ beforeDoubleColon t
    · obtain ⟨a, b, hab, hna⟩ := exists_first_split hbc
      have hseg : jsSplitChar ':' (beforeDoubleColon t)
          = a :: jsSplitChar ':' b := by
        rw [hab]
        exact jsSplitChar_append hna b
      rw [hseg]
      have hlen2 : 2 ≤ (a :: jsSplitChar ':' b).length := by
        have := jsSplitChar_ne_nil ':' b
        have hpos : 0 < (jsSplitChar ':' b).length := List.length_pos.mpr this
        simp
        omega
      rw [if_pos hlen2]
      by_cases hcb : ':' ∈ b
      · obtain ⟨a2, b2, hab2, hna2⟩ := exists_first_split hcb
        have hseg2 : jsSplitChar ':' b = a2 :: jsSplitChar ':' b2 := by
          rw [hab2]
          exact jsSplitChar_append hna2 b2
        rw [hseg2]
        have hteq : t = (a ++ ':' :: a2) ++ (':' :: b2 ++ ':' :: ':' :: r0) := by
          rw [hr0, hab, hab2]
          simp
        have hsplit_t : jsSplitChar ':' t
            = a :: a2 :: jsSplitChar ':' (b2 ++ ':' :: ':' :: r0) := by
          rw [show t = a ++ ':' :: (a2 ++ ':' :: (b2 ++ ':' :: ':' :: r0)) from by
              rw [hteq]; simp,
            jsSplitChar_append hna, jsSplitChar_append hna2]
        refine ⟨a ++ ':' :: a2, ':' :: b2 ++ ':' :: ':' :: r0,
          "::xxxx:xxxx:xxxx:xxxx".data, hteq, by simp, Or.inl rfl, ?_⟩
        right
        rw [hsplit_t]
        rfl
      · have hseg2 : jsSplitChar ':' b = [b] := jsSplitChar_not_mem hcb
        rw [hseg2]
        have hteq : t = (a ++ ':' :: b) ++ (':' :: ':' :: r0) := by
          rw [hr0, hab]
        have hsplit_t : jsSplitChar ':' t
            = a :: b :: jsSplitChar ':' (':' :: r0) := by
          rw [show t = a ++ ':' :: (b ++ ':' :: (':' :: r0)) from by
              rw [hteq]; simp,
            jsSplitChar_append hna, jsSplitChar_append hcb]
        refine ⟨a ++ ':' :: b, ':' :: ':' :: r0,
          "::xxxx:xxxx:xxxx:xxxx".data, hteq, by simp, Or.inl rfl, ?_⟩
        right
        rw [hsplit_t]
        rfl
    · have hseg : jsSplitChar ':' (beforeDoubleColon t)
          = [beforeDoubleColon t] := jsSplitChar_not_mem hbc
      rw [hseg]
      rw [if_neg (by simp)]
      have hsplit_t : jsSplitChar ':' t
          = beforeDoubleColon t :: jsSplitChar ':' (':' :: r0) := by
        conv_lhs => rw [hr0]
        exact jsSplitChar_append hbc (':' :: r0)
      refine ⟨beforeDoubleColon t, ':' :: ':' :: r0,
        ":xxxx::xxxx:xxxx:xxxx:xxxx".data, hr0, by simp, Or.inr (Or.inl rfl), ?_⟩
      left
      rw [hsplit_t]
      rfl
  · rw [if_neg hdc]
    dsimp only
    obtain ⟨a, b, hab, hna⟩ := exists_first_split hc
    by_cases hcb : ':' ∈ b
    · obtain ⟨a2, b2, hab2, hna2⟩ := exists_first_split hcb
      have hsplit_t : jsSplitChar ':' t
          = a :: a2 :: jsSplitChar ':' b2 := by
        rw [show t = a ++ ':' :: (a2 ++ ':' :: b2) from by rw [hab, hab2],
          jsSplitChar_append hna, jsSplitChar_append hna2]
      refine ⟨a ++ ':' :: a2, ':' :: b2,
        ":xxxx:xxxx:xxxx:xxxx:xxxx:xxxx".data, by rw [hab, hab2]; simp,
        by rw [hsplit_t]; simp, Or.inr (Or.inr rfl), ?_⟩
      right
      rw [hsplit_t]
      rfl
    · have hsplit_t : jsSplitChar ':' t = a :: [b] := by
        rw [show t = a ++ ':' :: b from hab, jsSplitChar_append hna,
          jsSplitChar_not_mem hcb]
      refine ⟨a ++ ':' :: b, [],
        ":xxxx:xxxx:xxxx:xxxx:xxxx:xxxx".data, by rw [hab]; simp,
        by rw [hsplit_t]; simp, Or.inr (Or.inr rfl), ?_⟩
      right
      rw [hsplit_t]
      rfl

theorem cgWb_nil_of_no_wb {body : CG} {s : List Char} {i : Nat}
    (h : wordBoundary s i = false) : cgWb body s i = [] := by
  apply cgSeq_left_nil
  simp [cgAssert, h]

/-- No IPv6 alternative can match where the word-boundary assertion
fails. -/
theorem cgMatch_ipv6_no_wb {s : List Char} {i : Nat}
    (h : wordBoundary s i = false) : cgMatch cgIPv6 s i = none := by
  have hz : ∀ body : CG, cgWb body s i = [] :=
    fun body => cgWb_nil_of_no_wb h
  unfold cgMatch cgIPv6 cgAlt
  simp only [List.map_cons, List.map_nil, hz]
  rfl

/-- C9 counterexample: the IPv6 loopback address `::1` is an IPv6
address, yet `obfuscateIPAddresses` returns it unchanged (the pattern
demands a leading word boundary, which cannot hold before `':'`), so
not every IPv6 address is masked. -/
theorem claim_C9_counterexample :
    obfuscateIPAddresses "::1" = "::1" := by
  rfl

/-- C9 amended: `obfuscateIPAddresses` is the composition of two
global replace passes; each pass tiles its input into spans, rewrites
exactly the pattern-matched spans and copies every other byte sequence
through unchanged; every span the IPv4 pattern matches is a dotted
quad of non-empty digit octets replaced by its first two octets plus
the fixed `.xxx.xxx` mask; every span the IPv6 pattern matches is
replaced by its own first one or two colon-separated segments plus one
of three fixed `xxxx` mask strings; no IPv6 match can begin where the
word-boundary assertion fails (which is why `::`-leading addresses
such as `::1` pass through unchanged); and a line with no `'.'` and no
`':'` is returned verbatim. -/
theorem claim_C9_redactor_behavior :
    (∀ s : String, obfuscateIPAddresses s
        = String.mk (runReplace (cgMatch cgIPv6) ipv6Repl
            (runReplace (cgMatch cgIPv4) ipv4Repl s.data))) ∧
    (∀ s : List Char,
      ((runReplacePieces (cgMatch cgIPv4) s).map Prod.fst).flatten = s ∧
      runReplace (cgMatch cgIPv4) ipv4Repl s
        = ((runReplacePieces (cgMatch cgIPv4) s).map
            (fun pc => if pc.2 then ipv4Repl pc.1 else pc.1)).flatten ∧
      (∀ pc ∈ runReplacePieces (cgMatch cgIPv4) s, pc.2 = true →
        ∃ o1 o2 o3 o4 : List Char,
          pc.1 = o1 ++ '.' :: (o2 ++ '.' :: (o3 ++ '.' :: o4)) ∧
          o1 ≠ [] ∧ o2 ≠ [] ∧ o3 ≠ [] ∧ o4 ≠ [] ∧
          (∀ c ∈ o1, c.isDigit = true) ∧ (∀ c ∈ o2, c.isDigit = true) ∧
          (∀ c ∈ o3, c.isDigit = true) ∧ (∀ c ∈ o4, c.isDigit = true) ∧
          ipv4Repl pc.1 = o1 ++ '.' :: o2 ++ ".xxx.xxx".data)) ∧
    (∀ s : List Char,
      ((runReplacePieces (cgMatch cgIPv6) s).map Prod.fst).flatten = s ∧
      runReplace (cgMatch cgIPv6) ipv6Repl s
        = ((runReplacePieces (cgMatch cgIPv6) s).map
            (fun pc => if pc.2 then ipv6Repl pc.1 else pc.1)).flatten ∧
      (∀ pc ∈ runReplacePieces (cgMatch cgIPv6) s, pc.2 = true →
        ∃ keep rest mask,
          pc.1 = keep ++ rest ∧
          ipv6Repl pc.1 = keep ++ mask ∧
          (mask = "::xxxx:xxxx:xxxx:xxxx".data ∨
            mask = ":xxxx::xxxx:xxxx:xxxx:xxxx".data ∨
            mask = ":xxxx:xxxx:xxxx:xxxx:xxxx:xxxx".data) ∧
          (keep = (jsSplitChar ':' pc.1).getD 0 [] ∨
            keep = (jsSplitChar ':' pc.1).getD 0 []
              ++ ':' :: (jsSplitChar ':' pc.1).getD 1 []))) ∧
    (∀ (s : List Char) (i : Nat), wordBoundary s i = false →
      cgMatch cgIPv6 s i = none) ∧
    (∀ s : String, (∀ c ∈ s.data, c ≠ '.' ∧ c ≠ ':') →
      obfuscateIPAddresses s = s) := by
  refine ⟨fun s => rfl, ?_, ?_, fun s i h => cgMatch_ipv6_no_wb h, ?_⟩
  · intro s
    refine ⟨?_, ?_, ?_⟩
    · have := replacePieces_tiles (cgMatch cgIPv4) s (s.length + 1) 0
      simpa [runReplacePieces] using this
    · exact replacePieces_output (cgMatch cgIPv4) ipv4Repl s (s.length + 1) 0
    · intro pc hpc htrue
      obtain ⟨j, len, hm, _, hspan⟩ :=
        replacePieces_matched (cgMatch cgIPv4) s (s.length + 1) 0 pc hpc htrue
      obtain ⟨o1, o2, o3, o4, hshape, hne1, hne2, hne3, hne4,
        hd1, hd2, hd3, hd4⟩ := ipv4_span_shape hm
      rw [hspan, hshape]
      exact ⟨o1, o2, o3, o4, rfl, hne1, hne2, hne3, hne4, hd1, hd2, hd3, hd4,
        ipv4Repl_dotted (not_dot_of_digits hd1) (not_dot_of_digits hd2)
          (not_dot_of_digits hd3) (not_dot_of_digits hd4)⟩
  · intro s
    refine ⟨?_, ?_, ?_⟩
    · have := replacePieces_tiles (cgMatch cgIPv6) s (s.length + 1) 0
      simpa [runReplacePieces] using this
    · exact replacePieces_output (cgMatch cgIPv6) ipv6Repl s (s.length + 1) 0
    · intro pc hpc htrue
      obtain ⟨j, len, hm, _, hspan⟩ :=
        replacePieces_matched (cgMatch cgIPv6) s (s.length + 1) 0 pc hpc htrue
      have hcol : ':' ∈ pc.1 := by
        rw [hspan]
        exact ipv6_span_colon hm
      exact ipv6Repl_masks pc.1 hcol
  · intro s hs
    show String.mk (runReplace (cgMatch cgIPv6) ipv6Repl
      (runReplace (cgMatch cgIPv4) ipv4Repl s.data)) = s
    rw [runReplace_none (cgMatch_ipv4_none fun c hc => (hs c hc).1),
      runReplace_none (cgMatch_ipv6_none fun c hc => (hs c hc).2)]

/-- Witness for C9: the matched-span facts applied at the tiling of a
line carrying one concrete IPv4 address, and the byte-preservation
conjunct at a plain line. -/
theorem claim_C9_redactor_behavior_witness :
    obfuscateIPAddresses "hello world" = "hello world" ∧
    runReplace (cgMatch cgIPv4) ipv4Repl "src 10.1.2.3 dst".data
      = ((runReplacePieces (cgMatch cgIPv4) "src 10.1.2.3 dst".data).map
          (fun pc => if pc.2 then ipv4Repl pc.1 else pc.1)).flatten :=
  ⟨claim_C9_redactor_behavior.2.2.2.2 "hello world" (by decide),
    (claim_C9_redactor_behavior.2.1 "src 10.1.2.3 dst".data).2.1⟩

/-- Witness for C2 at the injective line family
`i ↦ String.mk (List.replicate i 'a')`. -/
theorem claim_C2_store_bound_witness :
    ingestStored ((List.range' 1 6001).map
        fun i => [String.mk (List.replicate i 'a')])
      = (List.range' 1002 5000).map fun i => String.mk (List.replicate i 'a') :=
  (claim_C2_store_bound.2 (fun i => String.mk (List.replicate i 'a'))
    (fun i j h => by
      have h2 := congrArg String.data h
      have h3 := congrArg List.length h2
      simpa using h3)).1

end LogStream
